import Mathlib

/-!
# ZhengHe-MD/chat: the wire protocol (package `protocol`)

A shallow embedding of `protocol/command.go` (the seven command types and their
`String` encoders) and `protocol/reader.go` (`CommandReader.Read`), followed by
the theorems that settle the specification's claims about them.

Modelling conventions.

* A Go `string` and a `[]byte` are both modelled by the list of their characters
  (`GoString`).  The conversions `string(c.Data)` and `[]byte(message)` are the
  identity on the bytes, and every operation the package performs (splitting on
  `" "` and `"/"`, `strings.TrimSpace`, `strings.Join`, `==`) respects character
  boundaries of UTF-8 text, so the model covers all inputs that are valid UTF-8.
  The one place where the program cuts a string at a byte position is the
  4096-byte buffer of the reader (`ReadLine`); a character split there is
  written as one U+FFFD for each of its bytes, which is how Go decodes them.
* `cmd interface{}` holding a pointer to one of the seven command structs is the
  sum type `Command`; the nil interface is `none`.
* A Go index or slice expression that would be out of range panics.  The decoder
  is therefore written in the `Option` monad: `none` is a run-time panic, and
  every `parts[i]` is the checked lookup `parts[i]?`.
-/

namespace protocol

/-! ## Strings and the standard-library functions used by the package -/

/-- Go `string` and `[]byte` values, as lists of characters. -/
abbrev GoString := List Char

/-- Go `unicode.IsSpace`: in Latin-1 the characters `\t \n \v \f \r`, space,
U+0085 and U+00A0; beyond Latin-1 the characters with the `White_Space`
property. -/
def IsSpace (c : Char) : Bool :=
  let r := c.toNat
  (0x09 ≤ r && r ≤ 0x0D) || r == 0x20 || r == 0x85 || r == 0xA0 || r == 0x1680 ||
  (0x2000 ≤ r && r ≤ 0x200A) || r == 0x2028 || r == 0x2029 || r == 0x202F ||
  r == 0x205F || r == 0x3000

/-- Go `strings.TrimSpace`: the string without its leading and trailing white
space (as defined by `unicode.IsSpace`). -/
def TrimSpace (s : GoString) : GoString :=
  ((s.dropWhile IsSpace).reverse.dropWhile IsSpace).reverse

/-- Go `strings.Split(s, sep)` for a one-character separator (both call sites of
the package pass the one-character constants `" "` and `"/"`): the substrings of
`s` between the occurrences of `sep`.  A string without `sep` (the empty string
included) gives the one-element slice `[s]`. -/
def Split : GoString → Char → List GoString
  | [], _ => [[]]
  | c :: cs, sep =>
    if c = sep then [] :: Split cs sep
    else
      match Split cs sep with
      | [] => [[c]]
      | p :: ps => (c :: p) :: ps

/-- Go `strings.Join(elems, sep)` for a one-character separator: the elements
concatenated with `sep` between neighbours. -/
def Join : List GoString → Char → GoString
  | [], _ => []
  | [a], _ => a
  | a :: b :: rest, sep => a ++ sep :: Join (b :: rest) sep

/-- Go slice expression `xs[i:]`: panics (`none`) when `i > len(xs)`. -/
def sliceFrom {α : Type} (xs : List α) (i : Nat) : Option (List α) :=
  if i ≤ xs.length then some (xs.drop i) else none

/-- The number of bytes of the UTF-8 encoding of a string, Go's `len(s)`. -/
def utf8Len (s : GoString) : Nat := (s.map Char.utf8Size).sum

/-- The buffer size of `bufio.NewReader`, `defaultBufSize`. -/
def defaultBufSize : Nat := 4096

/-- The first `n` bytes of a string and the bytes after them, as characters.  A
character that the cut splits is no longer a character on either side: Go's
UTF-8 decoding reads each byte of an incomplete character as U+FFFD, and that
is how the two parts of a split character are written here, one U+FFFD for
each of its bytes. -/
def cutBytes : GoString → Nat → GoString × GoString
  | [], _ => ([], [])
  | c :: cs, n =>
    if n = 0 then ([], c :: cs)
    else if c.utf8Size ≤ n then
      (c :: (cutBytes cs (n - c.utf8Size)).1, (cutBytes cs (n - c.utf8Size)).2)
    else
      (List.replicate n (Char.ofNat 0xFFFD),
        List.replicate (c.utf8Size - n) (Char.ofNat 0xFFFD) ++ cs)

/-- Go `bufio.Reader.ReadLine` on a reader of `bufio.NewReader` whose unread
input is `input`: the returned line and the input that remains unread; `none`
is `io.EOF` (no input left).  When the first `\n`, or the end of the input,
lies within the first `defaultBufSize` bytes, the line is the bytes before that
`\n`, without a `\r` directly before it (an unterminated last line is returned
as it is).  Otherwise the buffer fills up before a `\n` is seen and the line is
the first `defaultBufSize` bytes, with `isPrefix` set (a final `\r` is put
back); `Read` discards `isPrefix`, so the value does not appear here, and the
remainder of the long line is what the next call starts from. -/
def ReadLine (input : GoString) : Option (GoString × GoString) :=
  if input = [] then none
  else
    let line := input.takeWhile (fun c => c != '\n')
    if utf8Len line < defaultBufSize then
      match input.dropWhile (fun c => c != '\n') with
      | [] => some (line, [])
      | _ :: rest =>
        some (if line.getLast? = some '\r' then line.dropLast else line, rest)
    else
      let cut := cutBytes input defaultBufSize
      if cut.1.getLast? = some '\r' then some (cut.1.dropLast, '\r' :: cut.2)
      else some cut

/-! ## command.go -/

def ProtocolName : GoString := "CHAT".toList
def ProtocolVersion : GoString := "1.0".toList
def ProtocolSep : Char := ' '

def CmdSend : GoString := "SEND".toList
def CmdBroadCast : GoString := "BROADCAST".toList
def CmdLogin : GoString := "LOGIN".toList
def CmdLogout : GoString := "LOGOUT".toList
def CmdReceive : GoString := "RECEIVE".toList
def CmdGroup : GoString := "GROUP".toList
def CmdLeave : GoString := "LEAVE".toList

/-- The error values of the package (`InvalidMessageErr`, `UnsupportedCmdErr`)
and `io.EOF`, which `Read` passes on from `ReadLine`. -/
inductive Error
  | InvalidMessageErr
  | UnsupportedCmdErr
  | EOF
deriving DecidableEq, Repr

structure BaseCommand where
  Protocol : GoString
  Version : GoString
deriving DecidableEq, Repr

structure SendCommand extends BaseCommand where
  Name : GoString
  Data : GoString
deriving DecidableEq, Repr

structure BroadCastCommand extends BaseCommand where
  GroupName : GoString
  Data : GoString
deriving DecidableEq, Repr

structure LoginCommand extends BaseCommand where
  Username : GoString
deriving DecidableEq, Repr

structure LogoutCommand extends BaseCommand where
deriving DecidableEq, Repr

structure ReceiveCommand extends BaseCommand where
  From : GoString
  Data : GoString
deriving DecidableEq, Repr

structure GroupCommand extends BaseCommand where
  GroupName : GoString
  UserNames : List GoString
deriving DecidableEq, Repr

structure LeaveCommand extends BaseCommand where
  GroupName : GoString
deriving DecidableEq, Repr

/-- The dynamic type behind `cmd interface{}`. -/
inductive Command
  | Send (c : SendCommand)
  | BroadCast (c : BroadCastCommand)
  | Login (c : LoginCommand)
  | Logout (c : LogoutCommand)
  | Receive (c : ReceiveCommand)
  | Group (c : GroupCommand)
  | Leave (c : LeaveCommand)
deriving DecidableEq, Repr

/-- `fmt.Sprintf("%s/%s", c.Protocol, c.Version)`. -/
def BaseCommand.String (c : BaseCommand) : GoString :=
  c.Protocol ++ '/' :: c.Version

def SendCommand.String (c : SendCommand) : GoString :=
  Join [c.toBaseCommand.String, CmdSend, c.Name, c.Data] ProtocolSep ++ ['\n']

def BroadCastCommand.String (c : BroadCastCommand) : GoString :=
  Join [c.toBaseCommand.String, CmdBroadCast, c.GroupName, c.Data] ProtocolSep ++ ['\n']

def LoginCommand.String (c : LoginCommand) : GoString :=
  Join [c.toBaseCommand.String, CmdLogin, c.Username] ProtocolSep ++ ['\n']

def LogoutCommand.String (c : LogoutCommand) : GoString :=
  Join [c.toBaseCommand.String, CmdLogout] ProtocolSep ++ ['\n']

def ReceiveCommand.String (c : ReceiveCommand) : GoString :=
  Join [c.toBaseCommand.String, CmdReceive, c.From, c.Data] ProtocolSep ++ ['\n']

def GroupCommand.String (c : GroupCommand) : GoString :=
  Join [c.toBaseCommand.String, CmdGroup, c.GroupName, Join c.UserNames ProtocolSep]
    ProtocolSep ++ ['\n']

def LeaveCommand.String (c : LeaveCommand) : GoString :=
  Join [c.toBaseCommand.String, CmdLeave, c.GroupName] ProtocolSep ++ ['\n']

/-- The text `CommandWriter.Write` hands to its sink, `fmt.Sprintf("%v", cmd)`:
the `String` method of the command's own type. -/
def Command.String : Command → GoString
  | .Send c => c.String
  | .BroadCast c => c.String
  | .Login c => c.String
  | .Logout c => c.String
  | .Receive c => c.String
  | .Group c => c.String
  | .Leave c => c.String

/-! ## reader.go -/

/-- The pair `(cmd interface{}, err error)` returned by `CommandReader.Read`;
`none` is Go's `nil`. -/
structure ReadResult where
  cmd : Option Command
  err : Option Error
deriving DecidableEq, Repr

/-- The `switch cmdName` statement of `CommandReader.Read` (reader.go lines
46-117), for the tokens `parts` of the line and the tag `base` already accepted.
`none` is an index-out-of-range panic. -/
def switchCmd (base : BaseCommand) (parts : List GoString) : Option ReadResult :=
  parts[1]? >>= fun p1 =>
  let cmdName := TrimSpace p1
  if cmdName = CmdSend then
    if parts.length < 4 then some ⟨none, some .InvalidMessageErr⟩ else
    parts[2]? >>= fun p2 =>
    let name := TrimSpace p2
    sliceFrom parts 3 >>= fun tail =>
    let message := Join tail ProtocolSep
    some ⟨some (.Send ⟨base, name, message⟩), none⟩
  else if cmdName = CmdBroadCast then
    if parts.length < 4 then some ⟨none, some .InvalidMessageErr⟩ else
    parts[2]? >>= fun p2 =>
    let groupName := TrimSpace p2
    sliceFrom parts 3 >>= fun tail =>
    let message := Join tail ProtocolSep
    some ⟨some (.BroadCast ⟨base, groupName, message⟩), none⟩
  else if cmdName = CmdLogin then
    if parts.length ≠ 3 then some ⟨none, some .InvalidMessageErr⟩ else
    parts[2]? >>= fun p2 =>
    let username := TrimSpace p2
    some ⟨some (.Login ⟨base, username⟩), none⟩
  else if cmdName = CmdLogout then
    if parts.length ≠ 2 then some ⟨none, some .InvalidMessageErr⟩ else
    some ⟨some (.Logout ⟨base⟩), none⟩
  else if cmdName = CmdReceive then
    if parts.length < 4 then some ⟨none, some .InvalidMessageErr⟩ else
    parts[2]? >>= fun p2 =>
    let f := TrimSpace p2
    sliceFrom parts 3 >>= fun tail =>
    let message := Join tail ProtocolSep
    some ⟨some (.Receive ⟨base, f, message⟩), none⟩
  else if cmdName = CmdGroup then
    if parts.length < 5 then some ⟨none, some .InvalidMessageErr⟩ else
    parts[2]? >>= fun p2 =>
    let groupName := TrimSpace p2
    sliceFrom parts 3 >>= fun userNames =>
    some ⟨some (.Group ⟨base, groupName, userNames⟩), none⟩
  else if cmdName = CmdLeave then
    if parts.length < 3 then some ⟨none, some .InvalidMessageErr⟩ else
    parts[2]? >>= fun p2 =>
    let groupName := TrimSpace p2
    some ⟨some (.Leave ⟨base, groupName⟩), none⟩
  else
    some ⟨none, some .UnsupportedCmdErr⟩

/-- The statements of `CommandReader.Read` that follow the `ReadLine` call
(reader.go lines 25-117), as a function of the line `ReadLine` returned: the
token count and tag checks, then the `switch`.  `none` is an
index-out-of-range panic. -/
def decodeLine (line : GoString) : Option ReadResult :=
  let parts := Split line ProtocolSep
  if parts.length < 2 then some ⟨none, some .InvalidMessageErr⟩ else
  parts[0]? >>= fun proVer =>
  let proVerParts := Split (TrimSpace proVer) '/'
  if proVerParts.length ≠ 2 then some ⟨none, some .InvalidMessageErr⟩ else
  proVerParts[0]? >>= fun protocol =>
  proVerParts[1]? >>= fun version =>
  if protocol ≠ ProtocolName ∨ version ≠ ProtocolVersion then
    some ⟨none, some .InvalidMessageErr⟩
  else
  let base : BaseCommand := ⟨protocol, version⟩
  switchCmd base parts

/-- `CommandReader.Read` on a reader whose unread input is `input`: a failing
`ReadLine` is returned as it is (`cmd` nil), otherwise the line is decoded. -/
def Read (input : GoString) : Option ReadResult :=
  match ReadLine input with
  | none => some ⟨none, some .EOF⟩
  | some (line, _) => decodeLine line

/-! ## Vocabulary of the specification -/

/-- The tokens of a line: its pieces between single separators. -/
def tokens (line : GoString) : List GoString := Split line ProtocolSep

/-- Token 0 of a line, trimmed: the protocol tag. -/
def tagOf (line : GoString) : Option GoString := (tokens line)[0]?.map TrimSpace

/-- Token 1 of a line, trimmed: the command keyword. -/
def keywordOf (line : GoString) : Option GoString := (tokens line)[1]?.map TrimSpace

/-- The tag every accepted line carries, `CHAT/1.0`. -/
def expectedTag : GoString := "CHAT/1.0".toList

/-- The seven command keywords. -/
def keywords : List GoString :=
  [CmdSend, CmdBroadCast, CmdLogin, CmdLogout, CmdReceive, CmdGroup, CmdLeave]

/-- A string without any white-space character. -/
def NoSpace (s : GoString) : Prop := ∀ c ∈ s, IsSpace c = false

/-- The decoder returned the failure `e` and no command. -/
def failsWith (line : GoString) (e : Error) : Prop :=
  decodeLine line = some ⟨none, some e⟩

/-- The decoder returned a command and no failure. -/
def succeeds (line : GoString) : Prop :=
  ∃ c, decodeLine line = some ⟨some c, none⟩

instance (s : GoString) : Decidable (NoSpace s) :=
  inferInstanceAs (Decidable (∀ c ∈ s, IsSpace c = false))

/-- A message body that survives the line framing: no newline and no carriage
return in it. -/
def NoLineBreak (b : GoString) : Prop := '\n' ∉ b ∧ '\r' ∉ b

instance (b : GoString) : Decidable (NoLineBreak b) :=
  inferInstanceAs (Decidable ('\n' ∉ b ∧ '\r' ∉ b))

/-- The protocol tag a command carries (its embedded `BaseCommand`). -/
def Command.base : Command → BaseCommand
  | .Send c => c.toBaseCommand
  | .BroadCast c => c.toBaseCommand
  | .Login c => c.toBaseCommand
  | .Logout c => c.toBaseCommand
  | .Receive c => c.toBaseCommand
  | .Group c => c.toBaseCommand
  | .Leave c => c.toBaseCommand

/-- The tag `CHAT/1.0` as a `BaseCommand`. -/
def chatBase : BaseCommand := ⟨ProtocolName, ProtocolVersion⟩

/-- The variant-specific fields of a command, in declaration order (a user list
contributes each of its names). -/
def Command.fields : Command → List GoString
  | .Send c => [c.Name, c.Data]
  | .BroadCast c => [c.GroupName, c.Data]
  | .Login c => [c.Username]
  | .Logout _ => []
  | .Receive c => [c.From, c.Data]
  | .Group c => c.GroupName :: c.UserNames
  | .Leave c => [c.GroupName]

/-- The identifier fields of a command that hold one name each: the name, group
name, user name or sender (not the data, and not the user list of `Group`). -/
def Command.scalarIdentifiers : Command → List GoString
  | .Send c => [c.Name]
  | .BroadCast c => [c.GroupName]
  | .Login c => [c.Username]
  | .Logout _ => []
  | .Receive c => [c.From]
  | .Group c => [c.GroupName]
  | .Leave c => [c.GroupName]

/-- All non-body identifier fields of a command: the scalar ones and, for
`Group`, each user name. -/
def Command.identifiers : Command → List GoString
  | .Group c => c.GroupName :: c.UserNames
  | c => c.scalarIdentifiers

/-- The spec's words for a user list on the wire, `<u1> <u2> ... <uk>`: the
usernames in list order, separated by single spaces. -/
def spaced : List GoString → GoString
  | [] => []
  | u :: us => if us = [] then u else u ++ " ".toList ++ spaced us

/-- The spec's canonical wire form of each variant, written out from the spec's
words: `<Protocol>/<Version> <CMD>[ <field> ...]\n`. -/
def canonical : Command → GoString
  | .Send c =>
    c.Protocol ++ "/".toList ++ c.Version ++ " SEND ".toList ++ c.Name ++ " ".toList
      ++ c.Data ++ "\n".toList
  | .BroadCast c =>
    c.Protocol ++ "/".toList ++ c.Version ++ " BROADCAST ".toList ++ c.GroupName
      ++ " ".toList ++ c.Data ++ "\n".toList
  | .Login c =>
    c.Protocol ++ "/".toList ++ c.Version ++ " LOGIN ".toList ++ c.Username ++ "\n".toList
  | .Logout c =>
    c.Protocol ++ "/".toList ++ c.Version ++ " LOGOUT".toList ++ "\n".toList
  | .Receive c =>
    c.Protocol ++ "/".toList ++ c.Version ++ " RECEIVE ".toList ++ c.From ++ " ".toList
      ++ c.Data ++ "\n".toList
  | .Group c =>
    c.Protocol ++ "/".toList ++ c.Version ++ " GROUP ".toList ++ c.GroupName
      ++ " ".toList ++ spaced c.UserNames ++ "\n".toList
  | .Leave c =>
    c.Protocol ++ "/".toList ++ c.Version ++ " LEAVE ".toList ++ c.GroupName
      ++ "\n".toList

/-- The spec's `ProtocolMismatch` class of lines: at least 2 tokens, a first
token of the form `<name>/<version>`, and a name or version other than
`CHAT` / `1.0`. -/
def protocolMismatch (line : GoString) : Prop :=
  2 ≤ (tokens line).length ∧
  ∃ p0 a b, (tokens line)[0]? = some p0 ∧ Split (TrimSpace p0) '/' = [a, b] ∧
    (a ≠ ProtocolName ∨ b ≠ ProtocolVersion)

/-- The spec's `MalformedFrame` class of lines at the tag check: fewer than 2
tokens, or a first token not of the form `<name>/<version>`. -/
def malformedFrame (line : GoString) : Prop :=
  (tokens line).length < 2 ∨
  ∃ p0, (tokens line)[0]? = some p0 ∧ (Split (TrimSpace p0) '/').length ≠ 2

/-- Text that is exactly one line: it ends with a newline and holds no other. -/
def IsOneLine (t : GoString) : Prop := ∃ body, t = body ++ ['\n'] ∧ '\n' ∉ body

/-- No white-space character stands immediately before the terminating
newline. -/
def NoTrailingSpace (t : GoString) : Prop :=
  ∀ body x, t = body ++ ['\n'] → body.getLast? = some x → IsSpace x = false

/-- The last piece of text a command's `String` method joins before the newline:
the data, the user name, the group name of `Leave`, the joined user list of
`Group`, or the keyword itself for `Logout`. -/
def Command.lastText : Command → GoString
  | .Send c => c.Data
  | .BroadCast c => c.Data
  | .Login c => c.Username
  | .Logout _ => CmdLogout
  | .Receive c => c.Data
  | .Group c => Join c.UserNames ProtocolSep
  | .Leave c => c.GroupName

/-- A message body that survives the line framing of `ReadLine`: it holds no
newline and does not end with a carriage return. -/
def BodyOK (b : GoString) : Prop := '\n' ∉ b ∧ b.getLast? ≠ some '\r'

instance (b : GoString) : Decidable (BodyOK b) :=
  inferInstanceAs (Decidable ('\n' ∉ b ∧ b.getLast? ≠ some '\r'))

/-- The commands that the wire form represents unambiguously: the tag is
`CHAT/1.0`, no identifier holds white space, a body holds no newline and does
not end with a carriage return, and a user list has at least 2 names. -/
def Command.WellFormed : Command → Prop
  | .Send c => c.toBaseCommand = chatBase ∧ NoSpace c.Name ∧ BodyOK c.Data
  | .BroadCast c => c.toBaseCommand = chatBase ∧ NoSpace c.GroupName ∧ BodyOK c.Data
  | .Login c => c.toBaseCommand = chatBase ∧ NoSpace c.Username
  | .Logout c => c.toBaseCommand = chatBase
  | .Receive c => c.toBaseCommand = chatBase ∧ NoSpace c.From ∧ BodyOK c.Data
  | .Group c => c.toBaseCommand = chatBase ∧ NoSpace c.GroupName ∧
      (∀ u ∈ c.UserNames, NoSpace u) ∧ 2 ≤ c.UserNames.length
  | .Leave c => c.toBaseCommand = chatBase ∧ NoSpace c.GroupName

/-- An identifier that the decoder gives back as it is: it holds no separator
(space) and has no white space at either end. -/
def Ident (x : GoString) : Prop := ' ' ∉ x ∧ TrimSpace x = x

instance (x : GoString) : Decidable (Ident x) :=
  inferInstanceAs (Decidable (' ' ∉ x ∧ TrimSpace x = x))

/-- The commands that the line format represents: the tag is `CHAT/1.0`, each
identifier field (name, group name, user name, from) holds no space and has no
white space at either end, and a user list has at least 2 names, none holding a
space.  The data is free. -/
def Command.Representable : Command → Prop
  | .Send c => c.toBaseCommand = chatBase ∧ Ident c.Name
  | .BroadCast c => c.toBaseCommand = chatBase ∧ Ident c.GroupName
  | .Login c => c.toBaseCommand = chatBase ∧ Ident c.Username
  | .Logout c => c.toBaseCommand = chatBase
  | .Receive c => c.toBaseCommand = chatBase ∧ Ident c.From
  | .Group c => c.toBaseCommand = chatBase ∧ Ident c.GroupName ∧
      (∀ u ∈ c.UserNames, ' ' ∉ u) ∧ 2 ≤ c.UserNames.length
  | .Leave c => c.toBaseCommand = chatBase ∧ Ident c.GroupName

/-- The commands of the round-trip property: Protocol `CHAT` and Version `1.0`,
no white space in any identifier field, no newline or carriage return in the
data (which may be empty and may hold spaces), and at least 2 user names in a
`Group`. -/
def Command.Clean : Command → Prop
  | .Send c => c.Protocol = ProtocolName ∧ c.Version = ProtocolVersion ∧ NoSpace c.Name ∧
      NoLineBreak c.Data
  | .BroadCast c => c.Protocol = ProtocolName ∧ c.Version = ProtocolVersion ∧
      NoSpace c.GroupName ∧ NoLineBreak c.Data
  | .Login c => c.Protocol = ProtocolName ∧ c.Version = ProtocolVersion ∧ NoSpace c.Username
  | .Logout c => c.Protocol = ProtocolName ∧ c.Version = ProtocolVersion
  | .Receive c => c.Protocol = ProtocolName ∧ c.Version = ProtocolVersion ∧ NoSpace c.From ∧
      NoLineBreak c.Data
  | .Group c => c.Protocol = ProtocolName ∧ c.Version = ProtocolVersion ∧
      NoSpace c.GroupName ∧ (∀ u ∈ c.UserNames, NoSpace u) ∧ 2 ≤ c.UserNames.length
  | .Leave c => c.Protocol = ProtocolName ∧ c.Version = ProtocolVersion ∧
      NoSpace c.GroupName

end protocol

/-!
# ZhengHe-MD/chat: the server (package `server`)

A shallow embedding of `server/handler.go` and of the registry part of
`server/tcp.go`.

Modelling conventions.

* A `*clientConn` is modelled by its identity `ConnId`; the object it points to
  lives in `TcpChatServer.heap`, so that the display name of a session can be
  read and assigned whether or not the session is still in `clientConnSet`.
* `clientConnSet`, a Go map used as a set, is the list of its keys; a map holds
  each key once, which the theorems assume as `Nodup` where it matters.  The
  order in which a `range` over the map yields the keys is left open by Go: the
  two handlers that range over the set take that order as the argument `order`,
  and the theorems hold for every permutation of the key set.
* `groupToMembers`, a `map[string][]string`, is a function to `Option`; `none`
  is an absent key.
* A handler's input/output on the connections (`CommandWriter.Write`,
  `net.Conn.Close`) is recorded as the list of `Effect`s it attempted, in order;
  whether each attempt fails is given by an arbitrary assignment `env` of
  outcomes.  Logging is not modelled.
-/

namespace server

open protocol

/-- The identity of a `*clientConn`. -/
abbrev ConnId := Nat

/-- An error value returned by the transport (a failed flush or close). -/
structure IOError where
  code : Nat
deriving DecidableEq, Repr

/-- The fields of `clientConn` that the handlers read and assign; `conn` and
`writer` are the two ends of the transport, addressed by the `ConnId`. -/
structure clientConn where
  name : GoString
deriving DecidableEq, Repr

/-- The registry `TcpChatServer` together with the `clientConn` objects its
pointers refer to. -/
structure TcpChatServer where
  clientConnSet : List ConnId
  groupToMembers : GoString → Option (List GoString)
  heap : ConnId → clientConn

/-- An input/output attempt of a handler: `scc.writer.Write(cmd)`, which hands
the text `cmd.String` to the sink of `target`, or `cc.conn.Close()`. -/
inductive Effect
  | write (target : ConnId) (cmd : Command)
  | close (target : ConnId)
deriving DecidableEq, Repr

/-- An assignment of outcomes to the input/output attempts: `none` is success,
`some e` the error the attempt returns. -/
abbrev IOOutcomes := Effect → Option IOError

/-- What a handler call leaves behind: the registry after it, the attempts it
made in order, and the `err` it returns (`none` is `nil`). -/
structure Outcome where
  state : TcpChatServer
  effects : List Effect
  err : Option IOError

/-- The text an attempt hands to the sink (`fmt.Sprintf("%v", cmd)` in
`CommandWriter.Write`). -/
def Effect.text : Effect → Option GoString
  | .write _ cmd => some cmd.String
  | .close _ => none

/-- The session an attempt is addressed to. -/
def Effect.target : Effect → ConnId
  | .write t _ => t
  | .close t => t

/-! ## tcp.go -/

/-- `accept`: a new `clientConn` (the fresh identity `cc`, its name the zero
value `""`) is added to the set. -/
def accept (s : TcpChatServer) (cc : ConnId) : TcpChatServer :=
  { s with
    clientConnSet := if cc ∈ s.clientConnSet then s.clientConnSet else cc :: s.clientConnSet
    heap := Function.update s.heap cc ⟨[]⟩ }

/-- `remove`: `delete(s.clientConnSet, cc)`. -/
def remove (s : TcpChatServer) (cc : ConnId) : TcpChatServer :=
  { s with clientConnSet := s.clientConnSet.filter (fun x => x ≠ cc) }

/-! ## handler.go -/

/-- The `Receive` command that `handleSend` and `handleBroadcast` build for each
target: the tag of the incoming command, `From` the sender's current name, and
the data. -/
def receiveFor (s : TcpChatServer) (cc : ConnId) (base : BaseCommand) (data : GoString) :
    Command :=
  .Receive ⟨base, (s.heap cc).name, data⟩

/-- The `for scc := range s.clientConnSet` loop of `handleSend` over the keys
still to visit: the attempts made and the value of `err` at the `return`. -/
def handleSend.range (s : TcpChatServer) (env : IOOutcomes) (cc : ConnId) (cmd : SendCommand) :
    List ConnId → List Effect × Option IOError
  | [] => ([], none)
  | scc :: rest =>
    if (s.heap scc).name = cmd.Name then
      let w := Effect.write scc (receiveFor s cc cmd.toBaseCommand cmd.Data)
      match env w with
      | some e => ([w], some e)
      | none =>
        let r := handleSend.range s env cc cmd rest
        (w :: r.1, r.2)
    else handleSend.range s env cc cmd rest

/-- `handleSend`; `order` is the order in which the `range` yields the keys of
`s.clientConnSet`. -/
def handleSend (s : TcpChatServer) (env : IOOutcomes) (order : List ConnId) (cc : ConnId)
    (cmd : SendCommand) : Outcome :=
  let r := handleSend.range s env cc cmd order
  ⟨s, r.1, r.2⟩

/-- The `for scc := range s.clientConnSet` loop of `handleBroadcast` over the
keys still to visit, `err` being the current value of the result variable and
`userNames` the member list behind `userNameSet`. -/
def handleBroadcast.range (s : TcpChatServer) (env : IOOutcomes) (cc : ConnId)
    (cmd : BroadCastCommand) (userNames : List GoString) :
    Option IOError → List ConnId → List Effect × Option IOError
  | err, [] => ([], err)
  | err, scc :: rest =>
    if scc = cc then handleBroadcast.range s env cc cmd userNames err rest
    else if (s.heap scc).name ∈ userNames then
      let w := Effect.write scc (receiveFor s cc cmd.toBaseCommand cmd.Data)
      let r := handleBroadcast.range s env cc cmd userNames (env w) rest
      (w :: r.1, r.2)
    else handleBroadcast.range s env cc cmd userNames err rest

/-- `handleBroadcast`; `order` is the order in which the `range` yields the keys
of `s.clientConnSet`. -/
def handleBroadcast (s : TcpChatServer) (env : IOOutcomes) (order : List ConnId)
    (cc : ConnId) (cmd : BroadCastCommand) : Outcome :=
  match s.groupToMembers cmd.GroupName with
  | none => ⟨s, [], none⟩
  | some userNames =>
    let r := handleBroadcast.range s env cc cmd userNames none order
    ⟨s, r.1, r.2⟩

/-- `handleLogin`: `cc.name = cmd.Username`. -/
def handleLogin (s : TcpChatServer) (cc : ConnId) (cmd : LoginCommand) : Outcome :=
  ⟨{ s with heap := Function.update s.heap cc { s.heap cc with name := cmd.Username } },
    [], none⟩

/-- `handleLogout`: `delete(s.clientConnSet, cc)`, then `err = cc.conn.Close()`. -/
def handleLogout (s : TcpChatServer) (env : IOOutcomes) (cc : ConnId)
    (_cmd : LogoutCommand) : Outcome :=
  ⟨{ s with clientConnSet := s.clientConnSet.filter (fun x => x ≠ cc) },
    [.close cc], env (.close cc)⟩

/-- The assignment `s.groupToMembers[groupName] = userNames` that a handler has
decided on in its read-locked section and performs in its write-locked
section. -/
structure PendingStore where
  groupName : GoString
  userNames : List GoString
deriving DecidableEq, Repr

/-- The section of `handleGroup` between `s.mu.RLock()` and `s.mu.RUnlock()`:
`none` when the group exists (the handler returns), otherwise the store to
perform. -/
def handleGroup.readSection (s : TcpChatServer) (cmd : GroupCommand) : Option PendingStore :=
  match s.groupToMembers cmd.GroupName with
  | some _ => none
  | none => some ⟨cmd.GroupName, cmd.UserNames⟩

/-- The section of `handleLeave` between `s.mu.RLock()` and `s.mu.RUnlock()`:
`none` when the group does not exist (the handler returns), otherwise the store
of the list that the loop builds by appending, in order, each member name other
than `cc.name`. -/
def handleLeave.readSection (s : TcpChatServer) (cc : ConnId) (cmd : LeaveCommand) :
    Option PendingStore :=
  match s.groupToMembers cmd.GroupName with
  | none => none
  | some members =>
    some ⟨cmd.GroupName,
      members.foldl
        (fun userNames userName =>
          if userName ≠ (s.heap cc).name then userNames ++ [userName] else userNames) []⟩

/-- The section of `handleGroup` and of `handleLeave` between `s.mu.Lock()` and
the deferred `s.mu.Unlock()`: the store itself. -/
def writeSection (s : TcpChatServer) (p : PendingStore) : TcpChatServer :=
  { s with groupToMembers := Function.update s.groupToMembers p.groupName (some p.userNames) }

/-- `handleGroup`, run without interruption. -/
def handleGroup (s : TcpChatServer) (_cc : ConnId) (cmd : GroupCommand) : Outcome :=
  match handleGroup.readSection s cmd with
  | none => ⟨s, [], none⟩
  | some p => ⟨writeSection s p, [], none⟩

/-- `handleLeave`, run without interruption. -/
def handleLeave (s : TcpChatServer) (cc : ConnId) (cmd : LeaveCommand) : Outcome :=
  match handleLeave.readSection s cc cmd with
  | none => ⟨s, [], none⟩
  | some p => ⟨writeSection s p, [], none⟩

/-- The type switch of `serve` on a decoded command: each variant goes to its
handler; a `*ReceiveCommand` falls to `default`, which only logs. -/
def dispatch (s : TcpChatServer) (env : IOOutcomes) (order : List ConnId) (cc : ConnId) :
    Command → Outcome
  | .Send c => handleSend s env order cc c
  | .BroadCast c => handleBroadcast s env order cc c
  | .Login c => handleLogin s cc c
  | .Logout c => handleLogout s env cc c
  | .Group c => handleGroup s cc c
  | .Leave c => handleLeave s cc c
  | .Receive _ => ⟨s, [], none⟩

/-! ## Concurrent calls of `handleGroup` and `handleLeave`

Each of the two handlers runs in two lock-delimited sections: a read-locked
section that only reads the group map and decides on a store, and, after the
read lock is released, a write-locked section that performs the store.  The
write lock excludes every other section and the read-locked sections do not
write, so an execution of concurrent calls is an interleaving of these
sections, each taken as one atomic step. -/

/-- A call of one of the two handlers by the session `cc`. -/
inductive Call
  | group (cc : ConnId) (cmd : GroupCommand)
  | leave (cc : ConnId) (cmd : LeaveCommand)
deriving DecidableEq, Repr

/-- Where a call stands: not yet begun, between its two sections with the store
it decided on, or returned. -/
inductive Thread
  | ready (c : Call)
  | waiting (p : PendingStore)
  | finished
deriving DecidableEq, Repr

/-- The read-locked section of a call. -/
def Call.readSection (s : TcpChatServer) : Call → Option PendingStore
  | .group _ cmd => handleGroup.readSection s cmd
  | .leave cc cmd => handleLeave.readSection s cc cmd

/-- The call run without interruption: the state its handler leaves. -/
def Call.run (s : TcpChatServer) : Call → TcpChatServer
  | .group cc cmd => (handleGroup s cc cmd).state
  | .leave cc cmd => (handleLeave s cc cmd).state

/-- One atomic step of a thread: its next lock-delimited section. -/
def stepThread (s : TcpChatServer) : Thread → TcpChatServer × Thread
  | .ready c =>
    match c.readSection s with
    | none => (s, .finished)
    | some p => (s, .waiting p)
  | .waiting p => (writeSection s p, .finished)
  | .finished => (s, .finished)

/-- An interleaving: the schedule names, step by step, the thread that runs its
next section. -/
def runSchedule (s : TcpChatServer) (ts : List Thread) : List Nat → TcpChatServer × List Thread
  | [] => (s, ts)
  | i :: sched =>
    match ts[i]? with
    | none => runSchedule s ts sched
    | some t => runSchedule (stepThread s t).1 (ts.set i (stepThread s t).2) sched

/-- The calls executed one after the other. -/
def runSequential (s : TcpChatServer) (calls : List Call) : TcpChatServer :=
  calls.foldl Call.run s

/-! ## Example registries -/

/-- Three live sessions named `a`, `b`, `c` (identities 1, 2, 3) and the group
`g1` with the members `b`, `c`, `a`. -/
def abcServer : TcpChatServer where
  clientConnSet := [1, 2, 3]
  groupToMembers := fun g => if g = "g1".toList then some ["b".toList, "c".toList, "a".toList] else none
  heap := fun i => if i = 1 then ⟨"a".toList⟩ else if i = 2 then ⟨"b".toList⟩ else ⟨"c".toList⟩

/-- Three live sessions (identities 1, 2, 3) named `a`, `b` and again `b`, and
no group. -/
def twinServer : TcpChatServer where
  clientConnSet := [1, 2, 3]
  groupToMembers := fun _ => none
  heap := fun i => if i = 1 then ⟨"a".toList⟩ else ⟨"b".toList⟩

/-- All attempts succeed. -/
def allSucceed : IOOutcomes := fun _ => none

/-- Every write to session 2 fails with error 7; all other attempts succeed. -/
def failAt2 : IOOutcomes := fun e =>
  match e with
  | .write 2 _ => some ⟨7⟩
  | _ => none

/-- Two live sessions named `x` and `y` (identities 1 and 2) and the group `g1`
with the members `x`, `y`, `z`. -/
def xyServer : TcpChatServer where
  clientConnSet := [1, 2]
  groupToMembers := fun g => if g = "g1".toList then some ["x".toList, "y".toList, "z".toList] else none
  heap := fun i => if i = 1 then ⟨"x".toList⟩ else ⟨"y".toList⟩

/-- Two live sessions and no group. -/
def noGroupServer : TcpChatServer where
  clientConnSet := [1, 2]
  groupToMembers := fun _ => none
  heap := fun i => if i = 1 then ⟨"x".toList⟩ else ⟨"y".toList⟩

/-- One session named `x` (identity 1) and the group `g1` whose only member is
`x`. -/
def soloServer : TcpChatServer where
  clientConnSet := [1]
  groupToMembers := fun g => if g = "g1".toList then some ["x".toList] else none
  heap := fun _ => ⟨"x".toList⟩

/-! ## The read loop of `serve` -/

/-- The text of an error value, `err.Error()`: the two `errors.New` messages of
the protocol package and that of `io.EOF`. -/
def ErrorString : Error → GoString
  | .InvalidMessageErr => "invalid message".toList
  | .UnsupportedCmdErr => "unsupported cmd".toList
  | .EOF => "EOF".toList

def ClosedConnectionMsg : GoString := "use of closed network connection".toList

/-- Go `strings.Contains(s, substr)`. -/
def Contains (s substr : GoString) : Bool := decide (substr <:+: s)

/-- How an iteration of the `for` loop of `serve` ends: with the next iteration
(`continue`, or the end of the body) or with `break`, after which the deferred
`remove` runs. -/
inductive LoopControl
  | next
  | stop
deriving DecidableEq, Repr

/-- One iteration of the `for` loop of `serve` for the session `cc`, on a reader
whose unread input is `input`: `mr.Read()`, the three `if`s and the type switch.
A failing handler is only logged.  `none` is a panic of `Read`.  The errors of
the transport other than `io.EOF` are not among the results of the modelled
`Read`. -/
def serveIteration (s : TcpChatServer) (env : IOOutcomes) (order : List ConnId) (cc : ConnId)
    (input : GoString) : Option (Outcome × LoopControl) :=
  match Read input with
  | none => none
  | some ⟨_, some err⟩ =>
    if err = .EOF then some (⟨s, [], none⟩, .stop)
    else if Contains (ErrorString err) ClosedConnectionMsg then some (⟨s, [], none⟩, .stop)
    else some (⟨s, [], none⟩, .next)
  | some ⟨some cmd, none⟩ => some (dispatch s env order cc cmd, .next)
  | some ⟨none, none⟩ => some (⟨s, [], none⟩, .next)

end server

namespace protocol

/-! ## Lemmas on the string functions -/

theorem Split_ne_nil (s : GoString) (c : Char) : Split s c ≠ [] := by
  induction s with
  | nil => simp [Split]
  | cons x xs ih =>
    unfold Split
    split_ifs
    · simp
    · cases h : Split xs c with
      | nil => exact absurd h ih
      | cons p ps => simp

theorem Split_length_pos (s : GoString) (c : Char) : 0 < (Split s c).length :=
  List.length_pos.mpr (Split_ne_nil s c)

theorem Join_cons (a : GoString) (ps : List GoString) (c : Char) (h : ps ≠ []) :
    Join (a :: ps) c = a ++ c :: Join ps c := by
  cases ps with
  | nil => exact absurd rfl h
  | cons b rest => rfl

theorem Join_Split (s : GoString) (c : Char) : Join (Split s c) c = s := by
  induction s with
  | nil => rfl
  | cons x xs ih =>
    unfold Split
    split_ifs with hx
    · rw [Join_cons _ _ _ (Split_ne_nil xs c), ih, hx]; rfl
    · cases h : Split xs c with
      | nil => exact absurd h (Split_ne_nil xs c)
      | cons p ps =>
        rw [h] at ih
        cases ps with
        | nil =>
          simp only [Join] at ih ⊢
          rw [ih]
        | cons q qs =>
          simp only [Join] at ih ⊢
          rw [← ih]; rfl

theorem Split_of_not_mem (s : GoString) (c : Char) (h : c ∉ s) : Split s c = [s] := by
  induction s with
  | nil => rfl
  | cons x xs ih =>
    have hx : x ≠ c := fun e => h (by simp [e])
    have hxs : c ∉ xs := fun e => h (by simp [e])
    unfold Split
    rw [if_neg hx, ih hxs]

theorem Split_append (a b : GoString) (c : Char) (h : c ∉ a) :
    Split (a ++ c :: b) c = a :: Split b c := by
  induction a with
  | nil => simp [Split]
  | cons x xs ih =>
    have hx : x ≠ c := fun e => h (by simp [e])
    have hxs : c ∉ xs := fun e => h (by simp [e])
    have e : Split (x :: (xs ++ c :: b)) c = (x :: xs) :: Split b c := by
      rw [Split, if_neg hx, ih hxs]
    simpa using e

theorem not_mem_of_Split (s : GoString) (c : Char) :
    ∀ p ∈ Split s c, c ∉ p := by
  induction s with
  | nil => simp [Split]
  | cons x xs ih =>
    unfold Split
    split_ifs with hx
    · intro p hp
      rcases List.mem_cons.mp hp with rfl | hp
      · simp
      · exact ih p hp
    · cases h : Split xs c with
      | nil => exact absurd h (Split_ne_nil xs c)
      | cons q qs =>
        rw [h] at ih
        intro p hp
        rcases List.mem_cons.mp hp with rfl | hp
        · intro hc
          rcases List.mem_cons.mp hc with e | hc
          · exact hx e.symm
          · exact ih q (by simp) hc
        · exact ih p (by simp [hp])

theorem Split_Join (us : List GoString) (c : Char) (hne : us ≠ [])
    (h : ∀ u ∈ us, c ∉ u) : Split (Join us c) c = us := by
  induction us with
  | nil => exact absurd rfl hne
  | cons u us ih =>
    cases us with
    | nil => exact Split_of_not_mem u c (h u (by simp))
    | cons v vs =>
      rw [Join_cons _ _ _ (by simp), Split_append _ _ _ (h u (by simp)),
        ih (by simp) (fun w hw => h w (by simp [hw]))]

theorem mem_Join (us : List GoString) (c x : Char) (hx : x ∈ Join us c) :
    x = c ∨ ∃ u ∈ us, x ∈ u := by
  induction us with
  | nil => simp [Join] at hx
  | cons u us ih =>
    cases us with
    | nil => exact Or.inr ⟨u, by simp, by simpa [Join] using hx⟩
    | cons v vs =>
      rw [Join_cons _ _ _ (by simp)] at hx
      rcases List.mem_append.mp hx with hx | hx
      · exact Or.inr ⟨u, by simp, hx⟩
      · rcases List.mem_cons.mp hx with hx | hx
        · exact Or.inl hx
        · rcases ih hx with h | ⟨w, hw, hxw⟩
          · exact Or.inl h
          · exact Or.inr ⟨w, by simp [hw], hxw⟩

theorem mem_Join_of_mem (us : List GoString) (c x : Char) (u : GoString) (hu : u ∈ us)
    (hx : x ∈ u) : x ∈ Join us c := by
  induction us with
  | nil => simp at hu
  | cons w ws ih =>
    cases ws with
    | nil =>
      simp only [List.mem_singleton] at hu
      subst hu
      simpa [Join] using hx
    | cons v vs =>
      rw [Join_cons _ _ _ (by simp)]
      rcases List.mem_cons.mp hu with rfl | hu
      · exact List.mem_append_left _ hx
      · exact List.mem_append_right _ (List.mem_cons_of_mem _ (ih hu))

theorem mem_Join_tail (a : GoString) (us : List GoString) (c x : Char)
    (hx : x ∈ Join us c) : x ∈ Join (a :: us) c := by
  cases us with
  | nil => simp [Join] at hx
  | cons v vs =>
    rw [Join_cons _ _ _ (by simp)]
    exact List.mem_append_right _ (List.mem_cons_of_mem _ hx)

theorem mem_of_mem_TrimSpace (s : GoString) (x : Char) (hx : x ∈ TrimSpace s) : x ∈ s := by
  unfold TrimSpace at hx
  rw [List.mem_reverse] at hx
  have h1 := (List.dropWhile_sublist IsSpace).subset hx
  rw [List.mem_reverse] at h1
  exact (List.dropWhile_sublist IsSpace).subset h1

theorem dropWhile_eq_self_of_head {α : Type} (p : α → Bool) (l : List α)
    (h : ∀ x, l.head? = some x → p x = false) : l.dropWhile p = l := by
  cases l with
  | nil => rfl
  | cons x xs => simp [List.dropWhile, h x rfl]

theorem TrimSpace_eq_self (s : GoString) (h : NoSpace s) : TrimSpace s = s := by
  unfold TrimSpace
  have h1 : s.dropWhile IsSpace = s :=
    dropWhile_eq_self_of_head _ _ (fun x hx => h x (List.mem_of_mem_head? hx))
  rw [h1]
  have h2 : s.reverse.dropWhile IsSpace = s.reverse :=
    dropWhile_eq_self_of_head _ _
      (fun x hx => h x (List.mem_reverse.mp (List.mem_of_mem_head? hx)))
  rw [h2, List.reverse_reverse]

theorem head?_dropWhile_IsSpace (l : GoString) (x : Char)
    (h : (l.dropWhile IsSpace).head? = some x) : IsSpace x = false := by
  induction l with
  | nil => simp at h
  | cons y ys ih =>
    by_cases hy : IsSpace y = true
    · rw [List.dropWhile_cons_of_pos hy] at h
      exact ih h
    · rw [List.dropWhile_cons_of_neg hy] at h
      simp only [List.head?_cons, Option.some.injEq] at h
      subst h
      simpa using hy

/-- `strings.TrimSpace` is idempotent: a trimmed string is its own trim. -/
theorem TrimSpace_idem (s : GoString) : TrimSpace (TrimSpace s) = TrimSpace s := by
  have hv : ∀ x, (TrimSpace s).reverse.head? = some x → IsSpace x = false := by
    intro x hx
    unfold TrimSpace at hx
    rw [List.reverse_reverse] at hx
    exact head?_dropWhile_IsSpace _ x hx
  have ht : ∀ x, (TrimSpace s).head? = some x → IsSpace x = false := by
    intro x hx
    unfold TrimSpace at hx
    rw [List.head?_reverse] at hx
    obtain ⟨t, e⟩ := List.dropWhile_suffix (l := (s.dropWhile IsSpace).reverse) IsSpace
    have hne : List.dropWhile IsSpace (s.dropWhile IsSpace).reverse ≠ [] := by
      intro e0
      rw [e0] at hx
      simp at hx
    have h2 := List.getLast?_append_of_ne_nil t hne
    rw [e, List.getLast?_reverse, hx] at h2
    exact head?_dropWhile_IsSpace _ x h2
  have h1 : (TrimSpace s).dropWhile IsSpace = TrimSpace s :=
    dropWhile_eq_self_of_head _ _ ht
  have h2 : (TrimSpace s).reverse.dropWhile IsSpace = (TrimSpace s).reverse :=
    dropWhile_eq_self_of_head _ _ hv
  have hdef : TrimSpace (TrimSpace s) =
      (((TrimSpace s).dropWhile IsSpace).reverse.dropWhile IsSpace).reverse := rfl
  rw [hdef, h1, h2, List.reverse_reverse]

theorem space_not_mem_of_NoSpace (s : GoString) (h : NoSpace s) : ' ' ∉ s := by
  intro hm
  have := h _ hm
  revert this
  decide

theorem utf8Len_append (a b : GoString) : utf8Len (a ++ b) = utf8Len a + utf8Len b := by
  simp [utf8Len]

theorem utf8Len_newline : utf8Len ['\n'] = 1 := by decide

theorem ReadLine_terminated (l : GoString) (h1 : '\n' ∉ l)
    (h2 : l.getLast? ≠ some '\r') (h3 : utf8Len l < defaultBufSize) :
    ReadLine (l ++ ['\n']) = some (l, []) := by
  have ht : (l ++ ['\n']).takeWhile (fun c => c != '\n') = l := by
    rw [List.takeWhile_append_of_pos]
    · simp
    · intro x hx
      simp only [bne_iff_ne, ne_eq]
      rintro rfl
      exact h1 hx
  have hd : (l ++ ['\n']).dropWhile (fun c => c != '\n') = ['\n'] := by
    rw [List.dropWhile_append_of_pos]
    · simp
    · intro x hx
      simp only [bne_iff_ne, ne_eq]
      rintro rfl
      exact h1 hx
  unfold ReadLine
  simp only [List.append_eq_nil, List.cons_ne_self, and_false, ↓reduceIte, ht, hd, h2, h3]

theorem utf8Len_cons (c : Char) (cs : GoString) :
    utf8Len (c :: cs) = c.utf8Size + utf8Len cs := by
  simp [utf8Len]

/-- A cut that falls behind a prefix leaves the prefix as it is. -/
theorem cutBytes_prefix (P r : GoString) (n : Nat) (h : utf8Len P ≤ n) :
    (cutBytes (P ++ r) n).1 = P ++ (cutBytes r (n - utf8Len P)).1 := by
  induction P generalizing n with
  | nil => simp [utf8Len]
  | cons c cs ih =>
    rw [utf8Len_cons] at h
    have hpos := Char.utf8Size_pos c
    have hn : n ≠ 0 := by omega
    have hc : c.utf8Size ≤ n := by omega
    have ih' := ih (n - c.utf8Size) (by omega)
    rw [List.cons_append]
    simp only [cutBytes, hn, ↓reduceIte, hc, ih', utf8Len_cons, List.cons_append,
      Nat.sub_sub]

/-- On text of one-byte characters the cut is at the `n`-th character. -/
theorem cutBytes_ascii (l : GoString) (n : Nat) (h : ∀ c ∈ l, c.utf8Size = 1) :
    cutBytes l n = (l.take n, l.drop n) := by
  induction l generalizing n with
  | nil => simp [cutBytes]
  | cons c cs ih =>
    have hc : c.utf8Size = 1 := h c (by simp)
    have ih' := fun m => ih m (fun x hx => h x (by simp [hx]))
    cases n with
    | zero => simp [cutBytes]
    | succ m =>
      simp only [cutBytes, Nat.add_one_ne_zero, ↓reduceIte, hc, Nat.le_add_left, ih',
        Nat.add_sub_cancel, List.take_succ_cons, List.drop_succ_cons]

/-- A line that does not end within the buffer: `ReadLine` hands over the first
`defaultBufSize` bytes of the input (less a final carriage return, which is put
back) and leaves the rest of the line unread. -/
theorem ReadLine_long (input : GoString) (hne : input ≠ [])
    (h : defaultBufSize ≤ utf8Len (input.takeWhile (fun c => c != '\n'))) :
    ReadLine input =
      if (cutBytes input defaultBufSize).1.getLast? = some '\r' then
        some ((cutBytes input defaultBufSize).1.dropLast,
          '\r' :: (cutBytes input defaultBufSize).2)
      else some (cutBytes input defaultBufSize) := by
  have h' : ¬ utf8Len (input.takeWhile (fun c => c != '\n')) < defaultBufSize := by omega
  simp only [ReadLine, hne, ↓reduceIte, h']

/-- Whatever follows, `ReadLine` hands over a line that begins with the text at
the head of the input, when that text holds no newline, does not end with a
carriage return and lies within the buffer. -/
theorem ReadLine_keeps_prefix (P r : GoString) (hne : P ≠ []) (h1 : '\n' ∉ P)
    (h2 : P.getLast? ≠ some '\r') (h3 : utf8Len P ≤ defaultBufSize) :
    ∃ t rest, ReadLine (P ++ r) = some (P ++ t, rest) := by
  have hdrop : ∀ t : GoString, ∃ t', (if (P ++ t).getLast? = some '\r' then (P ++ t).dropLast
      else P ++ t) = P ++ t' := by
    intro t
    by_cases hl : (P ++ t).getLast? = some '\r'
    · rw [if_pos hl]
      cases t with
      | nil => rw [List.append_nil] at hl; exact absurd hl h2
      | cons x xs =>
        exact ⟨(x :: xs).dropLast, List.dropLast_append_of_ne_nil _ (by simp)⟩
    · rw [if_neg hl]
      exact ⟨t, rfl⟩
  have ht : (P ++ r).takeWhile (fun c => c != '\n') =
      P ++ r.takeWhile (fun c => c != '\n') := by
    rw [List.takeWhile_append_of_pos]
    intro x hx
    simp only [bne_iff_ne, ne_eq]
    rintro rfl
    exact h1 hx
  have hin : P ++ r ≠ [] := by simp [hne]
  unfold ReadLine
  simp only [hin, ↓reduceIte, ht]
  by_cases hfit : utf8Len (P ++ List.takeWhile (fun c => c != '\n') r) < defaultBufSize
  · simp only [hfit, ↓reduceIte]
    cases hd : List.dropWhile (fun c => c != '\n') (P ++ r) with
    | nil => exact ⟨_, _, rfl⟩
    | cons y ys =>
      obtain ⟨t', ht'⟩ := hdrop (List.takeWhile (fun c => c != '\n') r)
      simp only [ht']
      exact ⟨t', ys, rfl⟩
  · simp only [hfit, ↓reduceIte]
    have hcut := cutBytes_prefix P r defaultBufSize h3
    by_cases hl : (cutBytes (P ++ r) defaultBufSize).1.getLast? = some '\r'
    · simp only [hl, ↓reduceIte]
      have := hdrop (cutBytes r (defaultBufSize - utf8Len P)).1
      rw [← hcut, if_pos hl] at this
      obtain ⟨t', ht'⟩ := this
      exact ⟨t', _, by rw [ht']⟩
    · simp only [hl, ↓reduceIte]
      refine ⟨(cutBytes r (defaultBufSize - utf8Len P)).1,
        (cutBytes (P ++ r) defaultBufSize).2, ?_⟩
      rw [← hcut]

/-! ## Lemmas on the decoder -/

theorem Split_tag : Split expectedTag '/' = [ProtocolName, ProtocolVersion] := by decide

theorem tag_of_Split (t a b : GoString) (h : Split t '/' = [a, b]) :
    t = a ++ '/' :: b := by
  have := Join_Split t '/'
  rw [h] at this
  exact this.symm

theorem tag_eq_of_Split (t : GoString)
    (h : Split t '/' = [ProtocolName, ProtocolVersion]) : t = expectedTag := by
  rw [tag_of_Split t _ _ h]; rfl

theorem decodeLine_short (line : GoString) (h : (Split line ProtocolSep).length < 2) :
    decodeLine line = some ⟨none, some .InvalidMessageErr⟩ := by
  unfold decodeLine
  simp only [h, ↓reduceIte]

theorem decodeLine_badtag (line p0 p1 : GoString) (rest : List GoString)
    (h : Split line ProtocolSep = p0 :: p1 :: rest) (ht : TrimSpace p0 ≠ expectedTag) :
    decodeLine line = some ⟨none, some .InvalidMessageErr⟩ := by
  unfold decodeLine
  simp only [h]
  rcases hs : Split (TrimSpace p0) '/' with _ | ⟨a, _ | ⟨b, _ | ⟨c, r⟩⟩⟩
  · simp [hs]
  · simp [hs]
  · have hab : ¬ (a = ProtocolName ∧ b = ProtocolVersion) := by
      rintro ⟨rfl, rfl⟩
      exact ht (tag_eq_of_Split _ hs)
    simp [hs]
    intro ha hb
    exact absurd ⟨ha, hb⟩ hab
  · simp [hs]

theorem decodeLine_goodtag (line p0 p1 : GoString) (rest : List GoString)
    (h : Split line ProtocolSep = p0 :: p1 :: rest) (ht : TrimSpace p0 = expectedTag) :
    decodeLine line = switchCmd ⟨ProtocolName, ProtocolVersion⟩ (p0 :: p1 :: rest) := by
  unfold decodeLine
  simp [h, ht, Split_tag]

/-! ### The `switch` statement, keyword by keyword -/

theorem switchCmd_Send_ok (base : BaseCommand) (p0 p1 p2 q : GoString) (qs : List GoString)
    (hk : TrimSpace p1 = CmdSend) :
    switchCmd base (p0 :: p1 :: p2 :: q :: qs) =
      some ⟨some (.Send ⟨base, TrimSpace p2, Join (q :: qs) ProtocolSep⟩), none⟩ := by
  simp +decide [switchCmd, hk, sliceFrom]

theorem switchCmd_Send_short (base : BaseCommand) (p0 p1 : GoString) (rest : List GoString)
    (hk : TrimSpace p1 = CmdSend) (hl : rest.length < 2) :
    switchCmd base (p0 :: p1 :: rest) = some ⟨none, some .InvalidMessageErr⟩ := by
  simp +decide [switchCmd, hk]
  omega

theorem switchCmd_BroadCast_ok (base : BaseCommand) (p0 p1 p2 q : GoString)
    (qs : List GoString) (hk : TrimSpace p1 = CmdBroadCast) :
    switchCmd base (p0 :: p1 :: p2 :: q :: qs) =
      some ⟨some (.BroadCast ⟨base, TrimSpace p2, Join (q :: qs) ProtocolSep⟩), none⟩ := by
  simp +decide [switchCmd, hk, sliceFrom]

theorem switchCmd_BroadCast_short (base : BaseCommand) (p0 p1 : GoString)
    (rest : List GoString) (hk : TrimSpace p1 = CmdBroadCast) (hl : rest.length < 2) :
    switchCmd base (p0 :: p1 :: rest) = some ⟨none, some .InvalidMessageErr⟩ := by
  simp +decide [switchCmd, hk]
  omega

theorem switchCmd_Receive_ok (base : BaseCommand) (p0 p1 p2 q : GoString)
    (qs : List GoString) (hk : TrimSpace p1 = CmdReceive) :
    switchCmd base (p0 :: p1 :: p2 :: q :: qs) =
      some ⟨some (.Receive ⟨base, TrimSpace p2, Join (q :: qs) ProtocolSep⟩), none⟩ := by
  simp +decide [switchCmd, hk, sliceFrom]

theorem switchCmd_Receive_short (base : BaseCommand) (p0 p1 : GoString)
    (rest : List GoString) (hk : TrimSpace p1 = CmdReceive) (hl : rest.length < 2) :
    switchCmd base (p0 :: p1 :: rest) = some ⟨none, some .InvalidMessageErr⟩ := by
  simp +decide [switchCmd, hk]
  omega

theorem switchCmd_Login_ok (base : BaseCommand) (p0 p1 p2 : GoString)
    (hk : TrimSpace p1 = CmdLogin) :
    switchCmd base [p0, p1, p2] = some ⟨some (.Login ⟨base, TrimSpace p2⟩), none⟩ := by
  simp +decide [switchCmd, hk]

theorem switchCmd_Login_bad (base : BaseCommand) (p0 p1 : GoString) (rest : List GoString)
    (hk : TrimSpace p1 = CmdLogin) (hl : rest.length ≠ 1) :
    switchCmd base (p0 :: p1 :: rest) = some ⟨none, some .InvalidMessageErr⟩ := by
  simp +decide [switchCmd, hk]
  omega

theorem switchCmd_Logout_ok (base : BaseCommand) (p0 p1 : GoString)
    (hk : TrimSpace p1 = CmdLogout) :
    switchCmd base [p0, p1] = some ⟨some (.Logout ⟨base⟩), none⟩ := by
  simp +decide [switchCmd, hk]

theorem switchCmd_Logout_bad (base : BaseCommand) (p0 p1 : GoString) (rest : List GoString)
    (hk : TrimSpace p1 = CmdLogout) (hl : rest ≠ []) :
    switchCmd base (p0 :: p1 :: rest) = some ⟨none, some .InvalidMessageErr⟩ := by
  simp +decide [switchCmd, hk, hl]

theorem switchCmd_Group_ok (base : BaseCommand) (p0 p1 p2 q1 q2 : GoString)
    (qs : List GoString) (hk : TrimSpace p1 = CmdGroup) :
    switchCmd base (p0 :: p1 :: p2 :: q1 :: q2 :: qs) =
      some ⟨some (.Group ⟨base, TrimSpace p2, q1 :: q2 :: qs⟩), none⟩ := by
  simp +decide [switchCmd, hk, sliceFrom]

theorem switchCmd_Group_short (base : BaseCommand) (p0 p1 : GoString) (rest : List GoString)
    (hk : TrimSpace p1 = CmdGroup) (hl : rest.length < 3) :
    switchCmd base (p0 :: p1 :: rest) = some ⟨none, some .InvalidMessageErr⟩ := by
  simp +decide [switchCmd, hk]
  omega

theorem switchCmd_Leave_ok (base : BaseCommand) (p0 p1 p2 : GoString) (qs : List GoString)
    (hk : TrimSpace p1 = CmdLeave) :
    switchCmd base (p0 :: p1 :: p2 :: qs) =
      some ⟨some (.Leave ⟨base, TrimSpace p2⟩), none⟩ := by
  simp +decide [switchCmd, hk]

theorem switchCmd_Leave_short (base : BaseCommand) (p0 p1 : GoString)
    (hk : TrimSpace p1 = CmdLeave) :
    switchCmd base [p0, p1] = some ⟨none, some .InvalidMessageErr⟩ := by
  simp +decide [switchCmd, hk]

theorem switchCmd_unsupported (base : BaseCommand) (p0 p1 : GoString) (rest : List GoString)
    (hk : TrimSpace p1 ∉ keywords) :
    switchCmd base (p0 :: p1 :: rest) = some ⟨none, some .UnsupportedCmdErr⟩ := by
  simp only [keywords, List.mem_cons, List.mem_singleton, not_or, List.not_mem_nil,
    or_false] at hk
  obtain ⟨h1, h2, h3, h4, h5, h6, h7⟩ := hk
  simp [switchCmd, h1, h2, h3, h4, h5, h6, h7]

/-! ### Lines in wire form -/

theorem TrimSpace_expectedTag : TrimSpace expectedTag = expectedTag := by decide

theorem decodeLine_wire (kw : GoString) (rest : List GoString) (tail : GoString)
    (hs : Split tail ProtocolSep = rest) (hk : ' ' ∉ kw) :
    decodeLine (expectedTag ++ ' ' :: (kw ++ ' ' :: tail)) =
      switchCmd chatBase (expectedTag :: kw :: rest) := by
  have h : Split (expectedTag ++ ' ' :: (kw ++ ' ' :: tail)) ProtocolSep =
      expectedTag :: kw :: rest := by
    simp only [ProtocolSep] at hs ⊢
    rw [Split_append _ _ _ (by decide), Split_append _ _ _ hk, hs]
  rw [decodeLine_goodtag _ _ _ _ h TrimSpace_expectedTag]
  rfl

theorem decodeLine_wire_short (kw : GoString) (hk : ' ' ∉ kw) :
    decodeLine (expectedTag ++ ' ' :: kw) = switchCmd chatBase [expectedTag, kw] := by
  have h : Split (expectedTag ++ ' ' :: kw) ProtocolSep = [expectedTag, kw] := by
    simp only [ProtocolSep]
    rw [Split_append _ _ _ (by decide), Split_of_not_mem _ _ hk]
  rw [decodeLine_goodtag _ _ _ _ h TrimSpace_expectedTag]
  rfl

theorem Read_terminated (line : GoString) (h1 : '\n' ∉ line)
    (h2 : line.getLast? ≠ some '\r') (h3 : utf8Len line < defaultBufSize) :
    Read (line ++ ['\n']) = decodeLine line := by
  unfold Read
  rw [ReadLine_terminated line h1 h2 h3]

theorem newline_not_mem_of_NoSpace (s : GoString) (h : NoSpace s) : '\n' ∉ s := by
  intro hm
  have := h _ hm
  revert this
  decide

theorem cr_not_mem_of_NoSpace (s : GoString) (h : NoSpace s) : '\r' ∉ s := by
  intro hm
  have := h _ hm
  revert this
  decide

theorem getLast?_ne_of_not_mem (s : GoString) (c : Char) (h : c ∉ s) :
    s.getLast? ≠ some c := by
  intro e
  exact h (List.mem_of_getLast?_eq_some e)

theorem getLast?_sep_body (a b : GoString) (hb : b.getLast? ≠ some '\r') :
    (a ++ ' ' :: b).getLast? ≠ some '\r' := by
  cases b with
  | nil =>
    rw [List.getLast?_append]
    simp
  | cons x xs =>
    rw [List.getLast?_append, List.getLast?_cons_cons]
    cases h : (x :: xs).getLast? with
    | none => simp at h
    | some y =>
      rw [h] at hb
      simpa using hb

/-- A line `CHAT/1.0 <kw> <n> <b>`, keyword and identifier without separator:
its tokens are the tag, the keyword, the identifier and the tokens of `b`. -/
theorem wire_line (kw n b : GoString) (hk : ' ' ∉ kw) (hn : ' ' ∉ n) :
    decodeLine (expectedTag ++ ' ' :: (kw ++ ' ' :: (n ++ ' ' :: b))) =
      switchCmd chatBase (expectedTag :: kw :: n :: Split b ProtocolSep) := by
  apply decodeLine_wire _ _ _ _ hk
  simp only [ProtocolSep]
  rw [Split_append _ _ _ hn]

/-- A line `CHAT/1.0 <kw> <n> <b>` with a body: its tokens are the tag, the
keyword, the identifier and the tokens of the body, and when the line fits the
reader's buffer it passes the framing of `ReadLine` unchanged. -/
theorem body_line (kw n b : GoString) (hk : NoSpace kw) (hn : NoSpace n)
    (h1 : '\n' ∉ b) (h2 : b.getLast? ≠ some '\r') :
    decodeLine (expectedTag ++ ' ' :: (kw ++ ' ' :: (n ++ ' ' :: b))) =
        switchCmd chatBase (expectedTag :: kw :: n :: Split b ProtocolSep) ∧
    (utf8Len (expectedTag ++ ' ' :: (kw ++ ' ' :: (n ++ ' ' :: b))) < defaultBufSize →
      Read (expectedTag ++ ' ' :: (kw ++ ' ' :: (n ++ ' ' :: b)) ++ ['\n']) =
        switchCmd chatBase (expectedTag :: kw :: n :: Split b ProtocolSep)) := by
  have hd := wire_line kw n b (space_not_mem_of_NoSpace kw hk) (space_not_mem_of_NoSpace n hn)
  refine ⟨hd, ?_⟩
  intro hfit
  rw [Read_terminated _ _ _ hfit, hd]
  · have hkn := newline_not_mem_of_NoSpace kw hk
    have hnn := newline_not_mem_of_NoSpace n hn
    have ht : '\n' ∉ expectedTag := by decide
    simp [hkn, hnn, ht, h1]
  · exact getLast?_sep_body _ _ (getLast?_sep_body _ _ (getLast?_sep_body _ _ h2))

theorem Split_body (b : GoString) :
    ∃ q qs, Split b ProtocolSep = q :: qs ∧ Join (q :: qs) ProtocolSep = b := by
  rcases h : Split b ProtocolSep with _ | ⟨q, qs⟩
  · exact absurd h (Split_ne_nil _ _)
  · exact ⟨q, qs, rfl, by rw [← h, Join_Split]⟩

/-! ### Every line -/

theorem tokens_shape (line k : GoString) (hk : keywordOf line = some k) :
    ∃ p0 p1 rest, Split line ProtocolSep = p0 :: p1 :: rest ∧ TrimSpace p1 = k ∧
      tagOf line = some (TrimSpace p0) ∧ (tokens line).length = rest.length + 2 := by
  unfold keywordOf tokens at hk
  unfold tagOf tokens
  rcases h : Split line ProtocolSep with _ | ⟨p0, _ | ⟨p1, rest⟩⟩
  · simp [h] at hk
  · simp [h] at hk
  · refine ⟨p0, p1, rest, rfl, ?_, ?_, ?_⟩
    · simpa [h] using hk
    · simp
    · simp

theorem switchCmd_total (base : BaseCommand) (p0 p1 : GoString) (rest : List GoString) :
    ∃ r, switchCmd base (p0 :: p1 :: rest) = some r ∧
      ((∃ c, r = ⟨some c, none⟩ ∧ c.base = base ∧
          ∀ f ∈ c.scalarIdentifiers, TrimSpace f = f) ∨
        r = ⟨none, some .InvalidMessageErr⟩ ∨
        r = ⟨none, some .UnsupportedCmdErr⟩) := by
  by_cases h1 : TrimSpace p1 = CmdSend
  · rcases rest with _ | ⟨p2, _ | ⟨q, qs⟩⟩
    · exact ⟨_, switchCmd_Send_short _ _ _ _ h1 (by simp), Or.inr (Or.inl rfl)⟩
    · exact ⟨_, switchCmd_Send_short _ _ _ _ h1 (by simp), Or.inr (Or.inl rfl)⟩
    · exact ⟨_, switchCmd_Send_ok _ _ _ _ _ _ h1, Or.inl ⟨_, rfl, rfl, by simp [Command.scalarIdentifiers, TrimSpace_idem]⟩⟩
  by_cases h2 : TrimSpace p1 = CmdBroadCast
  · rcases rest with _ | ⟨p2, _ | ⟨q, qs⟩⟩
    · exact ⟨_, switchCmd_BroadCast_short _ _ _ _ h2 (by simp), Or.inr (Or.inl rfl)⟩
    · exact ⟨_, switchCmd_BroadCast_short _ _ _ _ h2 (by simp), Or.inr (Or.inl rfl)⟩
    · exact ⟨_, switchCmd_BroadCast_ok _ _ _ _ _ _ h2, Or.inl ⟨_, rfl, rfl, by simp [Command.scalarIdentifiers, TrimSpace_idem]⟩⟩
  by_cases h3 : TrimSpace p1 = CmdLogin
  · rcases rest with _ | ⟨p2, _ | ⟨q, qs⟩⟩
    · exact ⟨_, switchCmd_Login_bad _ _ _ _ h3 (by simp), Or.inr (Or.inl rfl)⟩
    · exact ⟨_, switchCmd_Login_ok _ _ _ _ h3, Or.inl ⟨_, rfl, rfl, by simp [Command.scalarIdentifiers, TrimSpace_idem]⟩⟩
    · exact ⟨_, switchCmd_Login_bad _ _ _ _ h3 (by simp), Or.inr (Or.inl rfl)⟩
  by_cases h4 : TrimSpace p1 = CmdLogout
  · rcases rest with _ | ⟨p2, qs⟩
    · exact ⟨_, switchCmd_Logout_ok _ _ _ h4, Or.inl ⟨_, rfl, rfl, by simp [Command.scalarIdentifiers, TrimSpace_idem]⟩⟩
    · exact ⟨_, switchCmd_Logout_bad _ _ _ _ h4 (by simp), Or.inr (Or.inl rfl)⟩
  by_cases h5 : TrimSpace p1 = CmdReceive
  · rcases rest with _ | ⟨p2, _ | ⟨q, qs⟩⟩
    · exact ⟨_, switchCmd_Receive_short _ _ _ _ h5 (by simp), Or.inr (Or.inl rfl)⟩
    · exact ⟨_, switchCmd_Receive_short _ _ _ _ h5 (by simp), Or.inr (Or.inl rfl)⟩
    · exact ⟨_, switchCmd_Receive_ok _ _ _ _ _ _ h5, Or.inl ⟨_, rfl, rfl, by simp [Command.scalarIdentifiers, TrimSpace_idem]⟩⟩
  by_cases h6 : TrimSpace p1 = CmdGroup
  · rcases rest with _ | ⟨p2, _ | ⟨q1, _ | ⟨q2, qs⟩⟩⟩
    · exact ⟨_, switchCmd_Group_short _ _ _ _ h6 (by simp), Or.inr (Or.inl rfl)⟩
    · exact ⟨_, switchCmd_Group_short _ _ _ _ h6 (by simp), Or.inr (Or.inl rfl)⟩
    · exact ⟨_, switchCmd_Group_short _ _ _ _ h6 (by simp), Or.inr (Or.inl rfl)⟩
    · exact ⟨_, switchCmd_Group_ok _ _ _ _ _ _ _ h6, Or.inl ⟨_, rfl, rfl, by simp [Command.scalarIdentifiers, TrimSpace_idem]⟩⟩
  by_cases h7 : TrimSpace p1 = CmdLeave
  · rcases rest with _ | ⟨p2, qs⟩
    · exact ⟨_, switchCmd_Leave_short _ _ _ h7, Or.inr (Or.inl rfl)⟩
    · exact ⟨_, switchCmd_Leave_ok _ _ _ _ _ h7, Or.inl ⟨_, rfl, rfl, by simp [Command.scalarIdentifiers, TrimSpace_idem]⟩⟩
  · refine ⟨_, switchCmd_unsupported _ _ _ _ ?_, Or.inr (Or.inr rfl)⟩
    simp [keywords, h1, h2, h3, h4, h5, h6, h7]

theorem decodeLine_cases (line : GoString) :
    ∃ r, decodeLine line = some r ∧
      ((∃ c, r = ⟨some c, none⟩ ∧ c.base = chatBase ∧
          ∀ f ∈ c.scalarIdentifiers, TrimSpace f = f) ∨
        r = ⟨none, some .InvalidMessageErr⟩ ∨
        r = ⟨none, some .UnsupportedCmdErr⟩) := by
  rcases h : Split line ProtocolSep with _ | ⟨p0, _ | ⟨p1, rest⟩⟩
  · exact ⟨_, decodeLine_short line (by simp [h]), Or.inr (Or.inl rfl)⟩
  · exact ⟨_, decodeLine_short line (by simp [h]), Or.inr (Or.inl rfl)⟩
  · by_cases ht : TrimSpace p0 = expectedTag
    · rw [decodeLine_goodtag line p0 p1 rest h ht]
      exact switchCmd_total _ _ _ _
    · exact ⟨_, decodeLine_badtag line p0 p1 rest h ht, Or.inr (Or.inl rfl)⟩

theorem switchCmd_fields (base : BaseCommand) (p0 p1 : GoString) (rest : List GoString)
    (c : Command) (h : switchCmd base (p0 :: p1 :: rest) = some ⟨some c, none⟩) :
    ∀ f ∈ c.fields, ∀ x ∈ f, x ∈ Join (p0 :: p1 :: rest) ProtocolSep := by
  by_cases hSend : TrimSpace p1 = CmdSend
  · rcases rest with _ | ⟨p2, _ | ⟨q, qs⟩⟩
    · rw [switchCmd_Send_short _ _ _ _ hSend (by simp)] at h; simp at h
    · rw [switchCmd_Send_short _ _ _ _ hSend (by simp)] at h; simp at h
    · rw [switchCmd_Send_ok _ _ _ _ _ _ hSend] at h
      simp only [Option.some.injEq, ReadResult.mk.injEq, and_true] at h
      subst h
      intro f hf x hx
      simp only [Command.fields, List.mem_cons, List.mem_singleton, List.not_mem_nil,
        or_false] at hf
      rcases hf with rfl | rfl
      · exact mem_Join_of_mem _ _ _ p2 (by simp) (mem_of_mem_TrimSpace _ _ hx)
      · exact mem_Join_tail _ _ _ _ (mem_Join_tail _ _ _ _ (mem_Join_tail _ _ _ _ hx))
  by_cases hBroadCast : TrimSpace p1 = CmdBroadCast
  · rcases rest with _ | ⟨p2, _ | ⟨q, qs⟩⟩
    · rw [switchCmd_BroadCast_short _ _ _ _ hBroadCast (by simp)] at h; simp at h
    · rw [switchCmd_BroadCast_short _ _ _ _ hBroadCast (by simp)] at h; simp at h
    · rw [switchCmd_BroadCast_ok _ _ _ _ _ _ hBroadCast] at h
      simp only [Option.some.injEq, ReadResult.mk.injEq, and_true] at h
      subst h
      intro f hf x hx
      simp only [Command.fields, List.mem_cons, List.mem_singleton, List.not_mem_nil,
        or_false] at hf
      rcases hf with rfl | rfl
      · exact mem_Join_of_mem _ _ _ p2 (by simp) (mem_of_mem_TrimSpace _ _ hx)
      · exact mem_Join_tail _ _ _ _ (mem_Join_tail _ _ _ _ (mem_Join_tail _ _ _ _ hx))
  by_cases hLogin : TrimSpace p1 = CmdLogin
  · rcases rest with _ | ⟨p2, _ | ⟨q, qs⟩⟩
    · rw [switchCmd_Login_bad _ _ _ _ hLogin (by simp)] at h; simp at h
    · rw [switchCmd_Login_ok _ _ _ _ hLogin] at h
      simp only [Option.some.injEq, ReadResult.mk.injEq, and_true] at h
      subst h
      intro f hf x hx
      simp only [Command.fields, List.mem_singleton] at hf
      subst hf
      exact mem_Join_of_mem _ _ _ p2 (by simp) (mem_of_mem_TrimSpace _ _ hx)
    · rw [switchCmd_Login_bad _ _ _ _ hLogin (by simp)] at h; simp at h
  by_cases hLogout : TrimSpace p1 = CmdLogout
  · rcases rest with _ | ⟨p2, qs⟩
    · rw [switchCmd_Logout_ok _ _ _ hLogout] at h
      simp only [Option.some.injEq, ReadResult.mk.injEq, and_true] at h
      subst h
      intro f hf
      simp [Command.fields] at hf
    · rw [switchCmd_Logout_bad _ _ _ _ hLogout (by simp)] at h; simp at h
  by_cases hReceive : TrimSpace p1 = CmdReceive
  · rcases rest with _ | ⟨p2, _ | ⟨q, qs⟩⟩
    · rw [switchCmd_Receive_short _ _ _ _ hReceive (by simp)] at h; simp at h
    · rw [switchCmd_Receive_short _ _ _ _ hReceive (by simp)] at h; simp at h
    · rw [switchCmd_Receive_ok _ _ _ _ _ _ hReceive] at h
      simp only [Option.some.injEq, ReadResult.mk.injEq, and_true] at h
      subst h
      intro f hf x hx
      simp only [Command.fields, List.mem_cons, List.mem_singleton, List.not_mem_nil,
        or_false] at hf
      rcases hf with rfl | rfl
      · exact mem_Join_of_mem _ _ _ p2 (by simp) (mem_of_mem_TrimSpace _ _ hx)
      · exact mem_Join_tail _ _ _ _ (mem_Join_tail _ _ _ _ (mem_Join_tail _ _ _ _ hx))
  by_cases hGroup : TrimSpace p1 = CmdGroup
  · rcases rest with _ | ⟨p2, _ | ⟨q1, _ | ⟨q2, qs⟩⟩⟩
    · rw [switchCmd_Group_short _ _ _ _ hGroup (by simp)] at h; simp at h
    · rw [switchCmd_Group_short _ _ _ _ hGroup (by simp)] at h; simp at h
    · rw [switchCmd_Group_short _ _ _ _ hGroup (by simp)] at h; simp at h
    · rw [switchCmd_Group_ok _ _ _ _ _ _ _ hGroup] at h
      simp only [Option.some.injEq, ReadResult.mk.injEq, and_true] at h
      subst h
      intro f hf x hx
      simp only [Command.fields, List.mem_cons] at hf
      rcases hf with rfl | hf
      · exact mem_Join_of_mem _ _ _ p2 (by simp) (mem_of_mem_TrimSpace _ _ hx)
      · exact mem_Join_of_mem _ _ _ f (by simp [hf]) hx
  by_cases hLeave : TrimSpace p1 = CmdLeave
  · rcases rest with _ | ⟨p2, qs⟩
    · rw [switchCmd_Leave_short _ _ _ hLeave] at h; simp at h
    · rw [switchCmd_Leave_ok _ _ _ _ _ hLeave] at h
      simp only [Option.some.injEq, ReadResult.mk.injEq, and_true] at h
      subst h
      intro f hf x hx
      simp only [Command.fields, List.mem_singleton] at hf
      subst hf
      exact mem_Join_of_mem _ _ _ p2 (by simp) (mem_of_mem_TrimSpace _ _ hx)
  · rw [switchCmd_unsupported _ _ _ _ (by
      simp [keywords, hSend, hBroadCast, hLogin, hLogout, hReceive, hGroup, hLeave])] at h
    simp at h

/-- Every character of a field of a decoded command is a character of the
line. -/
theorem decodeLine_fields (line : GoString) (c : Command)
    (h : decodeLine line = some ⟨some c, none⟩) : ∀ f ∈ c.fields, ∀ x ∈ f, x ∈ line := by
  rcases hs : Split line ProtocolSep with _ | ⟨p0, _ | ⟨p1, rest⟩⟩
  · rw [decodeLine_short line (by simp [hs])] at h; simp at h
  · rw [decodeLine_short line (by simp [hs])] at h; simp at h
  · by_cases ht : TrimSpace p0 = expectedTag
    · rw [decodeLine_goodtag line p0 p1 rest hs ht] at h
      have := switchCmd_fields _ _ _ _ _ h
      rw [← hs, Join_Split] at this
      exact this
    · rw [decodeLine_badtag line p0 p1 rest hs ht] at h; simp at h

theorem tag_and_keyword_base (line : GoString) (c : Command)
    (h : decodeLine line = some ⟨some c, none⟩) : c.base = chatBase := by
  obtain ⟨r, hr, hc⟩ := decodeLine_cases line
  rw [h] at hr
  cases hr
  rcases hc with ⟨c', hc', hb, -⟩ | hc | hc
  · simp only [ReadResult.mk.injEq, Option.some.injEq, and_true] at hc'
    rw [hc']
    exact hb
  · simp at hc
  · simp at hc

/-- The scalar identifier fields of every decoded command are trimmed. -/
theorem decodeLine_scalarIdentifiers_trimmed (line : GoString) (c : Command)
    (h : decodeLine line = some ⟨some c, none⟩) :
    ∀ f ∈ c.scalarIdentifiers, TrimSpace f = f := by
  obtain ⟨r, hr, hc⟩ := decodeLine_cases line
  rw [h] at hr
  cases hr
  rcases hc with ⟨c', hc', -, ht⟩ | hc | hc
  · simp only [ReadResult.mk.injEq, Option.some.injEq, and_true] at hc'
    rw [hc']
    exact ht
  · simp at hc
  · simp at hc

theorem settle_ok (line : GoString) (c : Command) (cond : Prop)
    (h : decodeLine line = some ⟨some c, none⟩) (hc : cond) :
    (succeeds line ↔ cond) ∧ (¬ cond → failsWith line .InvalidMessageErr) :=
  ⟨⟨fun _ => hc, fun _ => ⟨c, h⟩⟩, fun hn => absurd hc hn⟩

theorem settle_bad (line : GoString) (cond : Prop)
    (h : decodeLine line = some ⟨none, some .InvalidMessageErr⟩) (hc : ¬ cond) :
    (succeeds line ↔ cond) ∧ (¬ cond → failsWith line .InvalidMessageErr) := by
  refine ⟨⟨?_, fun hp => absurd hp hc⟩, fun _ => h⟩
  rintro ⟨c, hc'⟩
  rw [h] at hc'
  simp at hc'

/-! ## Theorems on the encoder -/

theorem getLast?_after_sep (pre last : GoString) (h : last ≠ []) :
    (pre ++ ' ' :: last).getLast? = last.getLast? := by
  cases last with
  | nil => exact absurd rfl h
  | cons y ys =>
    rw [List.getLast?_append, List.getLast?_cons_cons]
    cases hy : (y :: ys).getLast? with
    | none => simp at hy
    | some z => rfl

/-- Shape of an encoded command: some text without newline, a separator, the
last text, and one newline. -/
theorem String_shape (c : Command) (hb : c.base = chatBase)
    (hf : ∀ f ∈ c.fields, '\n' ∉ f) :
    ∃ pre, c.String = (pre ++ ' ' :: c.lastText) ++ ['\n'] ∧ '\n' ∉ pre ∧
      '\n' ∉ c.lastText := by
  have h1 : '\n' ∉ chatBase.String := by decide
  cases c with
  | Send c =>
    have hb' : c.toBaseCommand = chatBase := hb
    refine ⟨chatBase.String ++ ' ' :: (CmdSend ++ ' ' :: c.Name), ?_, ?_, ?_⟩
    · simp [Command.String, SendCommand.String, Join, ProtocolSep, Command.lastText, hb']
    · simp only [List.mem_append, List.mem_cons, not_or]
      exact ⟨h1, by decide, by decide, by decide, hf _ (by simp [Command.fields])⟩
    · exact hf _ (by simp [Command.fields, Command.lastText])
  | BroadCast c =>
    have hb' : c.toBaseCommand = chatBase := hb
    refine ⟨chatBase.String ++ ' ' :: (CmdBroadCast ++ ' ' :: c.GroupName), ?_, ?_, ?_⟩
    · simp [Command.String, BroadCastCommand.String, Join, ProtocolSep, Command.lastText,
        hb']
    · simp only [List.mem_append, List.mem_cons, not_or]
      exact ⟨h1, by decide, by decide, by decide, hf _ (by simp [Command.fields])⟩
    · exact hf _ (by simp [Command.fields, Command.lastText])
  | Login c =>
    have hb' : c.toBaseCommand = chatBase := hb
    refine ⟨chatBase.String ++ ' ' :: CmdLogin, ?_, ?_, ?_⟩
    · simp [Command.String, LoginCommand.String, Join, ProtocolSep, Command.lastText, hb']
    · simp only [List.mem_append, List.mem_cons, not_or]
      exact ⟨h1, by decide, by decide⟩
    · exact hf _ (by simp [Command.fields, Command.lastText])
  | Logout c =>
    have hb' : c.toBaseCommand = chatBase := hb
    have h2 : '\n' ∉ CmdLogout := by decide
    refine ⟨chatBase.String, ?_, h1, h2⟩
    simp [Command.String, LogoutCommand.String, Join, ProtocolSep, Command.lastText, hb']
  | Receive c =>
    have hb' : c.toBaseCommand = chatBase := hb
    refine ⟨chatBase.String ++ ' ' :: (CmdReceive ++ ' ' :: c.From), ?_, ?_, ?_⟩
    · simp [Command.String, ReceiveCommand.String, Join, ProtocolSep, Command.lastText, hb']
    · simp only [List.mem_append, List.mem_cons, not_or]
      exact ⟨h1, by decide, by decide, by decide, hf _ (by simp [Command.fields])⟩
    · exact hf _ (by simp [Command.fields, Command.lastText])
  | Group c =>
    have hb' : c.toBaseCommand = chatBase := hb
    refine ⟨chatBase.String ++ ' ' :: (CmdGroup ++ ' ' :: c.GroupName), ?_, ?_, ?_⟩
    · simp [Command.String, GroupCommand.String, Join, ProtocolSep, Command.lastText, hb']
    · simp only [List.mem_append, List.mem_cons, not_or]
      exact ⟨h1, by decide, by decide, by decide, hf _ (by simp [Command.fields])⟩
    · intro hx
      rcases mem_Join _ _ _ hx with h | ⟨u, hu, hxu⟩
      · revert h; decide
      · exact hf u (by simp [Command.fields, hu]) hxu
  | Leave c =>
    have hb' : c.toBaseCommand = chatBase := hb
    refine ⟨chatBase.String ++ ' ' :: CmdLeave, ?_, ?_, ?_⟩
    · simp [Command.String, LeaveCommand.String, Join, ProtocolSep, Command.lastText, hb']
    · simp only [List.mem_append, List.mem_cons, not_or]
      exact ⟨h1, by decide, by decide⟩
    · exact hf _ (by simp [Command.fields, Command.lastText])

theorem Join_eq_spaced (us : List GoString) : Join us ProtocolSep = spaced us := by
  induction us with
  | nil => rfl
  | cons u us ih =>
    cases us with
    | nil => simp [Join, spaced]
    | cons v vs =>
      rw [Join_cons _ _ _ (by simp), ih]
      simp [spaced, ProtocolSep]

/-- C3: for every command value the encoder's output (`String`, the text
`CommandWriter.Write` sends) is exactly the canonical wire form built from the
command's own fields, `<Protocol>/<Version> <CMD>[ <field> ...]` followed by one
newline, the user list of `Group` in list order separated by single spaces; and
`Send{CHAT, 1.0, "zhenghe", "hello world"}` encodes to
`"CHAT/1.0 SEND zhenghe hello world\n"`. -/
theorem String_eq_canonical :
    (∀ c : Command, c.String = canonical c) ∧
    (Command.Send ⟨⟨"CHAT".toList, "1.0".toList⟩, "zhenghe".toList,
        "hello world".toList⟩).String = "CHAT/1.0 SEND zhenghe hello world\n".toList := by
  refine ⟨?_, by decide⟩
  intro c
  cases c with
  | Send c =>
    simp [Command.String, SendCommand.String, BaseCommand.String, Join, canonical, CmdSend,
      ProtocolSep]
  | BroadCast c =>
    simp [Command.String, BroadCastCommand.String, BaseCommand.String, Join, canonical,
      CmdBroadCast, ProtocolSep]
  | Login c =>
    simp [Command.String, LoginCommand.String, BaseCommand.String, Join, canonical, CmdLogin,
      ProtocolSep]
  | Logout c =>
    simp [Command.String, LogoutCommand.String, BaseCommand.String, Join, canonical,
      CmdLogout, ProtocolSep]
  | Receive c =>
    simp [Command.String, ReceiveCommand.String, BaseCommand.String, Join, canonical,
      CmdReceive, ProtocolSep]
  | Group c =>
    have := Join_eq_spaced c.UserNames
    simp only [ProtocolSep] at this
    simp [Command.String, GroupCommand.String, BaseCommand.String, Join, canonical, CmdGroup,
      ProtocolSep, this]
  | Leave c =>
    simp [Command.String, LeaveCommand.String, BaseCommand.String, Join, canonical, CmdLeave,
      ProtocolSep]

/-- C9, counterexample: `Send{CHAT, 1.0, "a", ""}` has the tag `CHAT/1.0` and no
newline in its fields, and it is what the decoder returns for the line
`"CHAT/1.0 SEND a "`; its encoding is `"CHAT/1.0 SEND a \n"`, with a space
immediately before the terminating newline. -/
theorem empty_body_leaves_trailing_space :
    (Command.Send ⟨chatBase, "a".toList, []⟩).base = chatBase ∧
    (∀ f ∈ (Command.Send ⟨chatBase, "a".toList, []⟩).fields, '\n' ∉ f) ∧
    decodeLine "CHAT/1.0 SEND a ".toList =
      some ⟨some (.Send ⟨chatBase, "a".toList, []⟩), none⟩ ∧
    (Command.Send ⟨chatBase, "a".toList, []⟩).String = "CHAT/1.0 SEND a \n".toList ∧
    ¬ NoTrailingSpace (Command.Send ⟨chatBase, "a".toList, []⟩).String := by
  refine ⟨rfl, by decide, by decide, by decide, ?_⟩
  intro h
  have := h "CHAT/1.0 SEND a ".toList ' ' (by decide) (by decide)
  revert this
  decide

/-- C9, amended: for every command value with tag `CHAT/1.0` whose fields hold
no newline, the encoded text is exactly one line: it ends with a single
newline and holds no other; and no white-space character stands immediately
before that newline whenever the last text written (the data, the user name,
the group name of `Leave`, the joined user list, the keyword of `Logout`) is
not empty and does not itself end with white space.  Every command decoded from
a line without newline is such a command, so its encoding is exactly one
line. -/
theorem encoded_is_one_line (c : Command) (hb : c.base = chatBase)
    (hf : ∀ f ∈ c.fields, '\n' ∉ f) :
    IsOneLine c.String ∧
    (c.lastText ≠ [] → (∀ x, c.lastText.getLast? = some x → IsSpace x = false) →
      NoTrailingSpace c.String) ∧
    (∀ line d, '\n' ∉ line → decodeLine line = some ⟨some d, none⟩ →
      IsOneLine d.String) := by
  have key : ∀ d : Command, d.base = chatBase → (∀ f ∈ d.fields, '\n' ∉ f) →
      IsOneLine d.String := by
    intro d hdb hdf
    obtain ⟨pre, he, hp, hl⟩ := String_shape d hdb hdf
    refine ⟨pre ++ ' ' :: d.lastText, he, ?_⟩
    simp only [List.mem_append, List.mem_cons, not_or]
    exact ⟨hp, by decide, hl⟩
  refine ⟨key c hb hf, ?_, ?_⟩
  · intro hne hlast body x hbody hx
    obtain ⟨pre, he, -, -⟩ := String_shape c hb hf
    rw [he] at hbody
    have hbe : body = pre ++ ' ' :: c.lastText := (List.append_cancel_right hbody).symm
    rw [hbe, getLast?_after_sep _ _ hne] at hx
    exact hlast x hx
  · intro line d hline hd
    apply key d
    · exact (tag_and_keyword_base line d hd)
    · intro f hf' hx
      exact hline (decodeLine_fields line d hd f hf' _ hx)

/-- Witness of C9, amended: `Send{CHAT, 1.0, "zhenghe", "hello world"}` encodes
to one line without white space before the newline. -/
theorem encoded_is_one_line_witness :
    IsOneLine (Command.Send ⟨chatBase, "zhenghe".toList, "hello world".toList⟩).String ∧
    NoTrailingSpace (Command.Send ⟨chatBase, "zhenghe".toList, "hello world".toList⟩).String :=
  ⟨(encoded_is_one_line (.Send ⟨chatBase, "zhenghe".toList, "hello world".toList⟩) rfl
      (by decide)).1,
   (encoded_is_one_line (.Send ⟨chatBase, "zhenghe".toList, "hello world".toList⟩) rfl
      (by decide)).2.1 (by decide) (by decide)⟩

/-! ## Theorems on the decoder -/

theorem WellFormed_frame (c : Command) (h : c.WellFormed) :
    c.base = chatBase ∧ (∀ f ∈ c.fields, '\n' ∉ f) ∧ c.lastText.getLast? ≠ some '\r' := by
  cases c with
  | Send c =>
    obtain ⟨hb, hn, hd1, hd2⟩ := h
    refine ⟨hb, ?_, hd2⟩
    intro f hf
    simp only [Command.fields, List.mem_cons, List.mem_singleton, List.not_mem_nil,
      or_false] at hf
    rcases hf with rfl | rfl
    · exact newline_not_mem_of_NoSpace _ hn
    · exact hd1
  | BroadCast c =>
    obtain ⟨hb, hn, hd1, hd2⟩ := h
    refine ⟨hb, ?_, hd2⟩
    intro f hf
    simp only [Command.fields, List.mem_cons, List.mem_singleton, List.not_mem_nil,
      or_false] at hf
    rcases hf with rfl | rfl
    · exact newline_not_mem_of_NoSpace _ hn
    · exact hd1
  | Login c =>
    obtain ⟨hb, hn⟩ := h
    refine ⟨hb, ?_, getLast?_ne_of_not_mem _ _ (cr_not_mem_of_NoSpace _ hn)⟩
    intro f hf
    simp only [Command.fields, List.mem_singleton] at hf
    subst hf
    exact newline_not_mem_of_NoSpace _ hn
  | Logout c =>
    refine ⟨h, ?_, ?_⟩
    · intro f hf
      simp [Command.fields] at hf
    · have : CmdLogout.getLast? ≠ some '\r' := by decide
      exact this
  | Receive c =>
    obtain ⟨hb, hn, hd1, hd2⟩ := h
    refine ⟨hb, ?_, hd2⟩
    intro f hf
    simp only [Command.fields, List.mem_cons, List.mem_singleton, List.not_mem_nil,
      or_false] at hf
    rcases hf with rfl | rfl
    · exact newline_not_mem_of_NoSpace _ hn
    · exact hd1
  | Group c =>
    obtain ⟨hb, hn, hu, -⟩ := h
    refine ⟨hb, ?_, ?_⟩
    · intro f hf
      simp only [Command.fields, List.mem_cons] at hf
      rcases hf with rfl | hf
      · exact newline_not_mem_of_NoSpace _ hn
      · exact newline_not_mem_of_NoSpace _ (hu f hf)
    · apply getLast?_ne_of_not_mem
      intro hx
      rcases mem_Join _ _ _ hx with e | ⟨u, hu', hxu⟩
      · revert e; decide
      · exact cr_not_mem_of_NoSpace _ (hu u hu') hxu
  | Leave c =>
    obtain ⟨hb, hn⟩ := h
    refine ⟨hb, ?_, getLast?_ne_of_not_mem _ _ (cr_not_mem_of_NoSpace _ hn)⟩
    intro f hf
    simp only [Command.fields, List.mem_singleton] at hf
    subst hf
    exact newline_not_mem_of_NoSpace _ hn

/-! ### Round trip -/

theorem Ident_of_NoSpace (x : GoString) (h : NoSpace x) : Ident x :=
  ⟨space_not_mem_of_NoSpace x h, TrimSpace_eq_self x h⟩

theorem Ident_TrimSpace (p : GoString) (h : ' ' ∉ p) : Ident (TrimSpace p) :=
  ⟨fun hx => h (mem_of_mem_TrimSpace _ _ hx), TrimSpace_idem p⟩

theorem Representable_base (c : Command) (h : c.Representable) : c.base = chatBase := by
  cases c with
  | Send c => exact h.1
  | BroadCast c => exact h.1
  | Login c => exact h.1
  | Logout c => exact h
  | Receive c => exact h.1
  | Group c => exact h.1
  | Leave c => exact h.1

theorem WellFormed_Representable (c : Command) (h : c.WellFormed) : c.Representable := by
  cases c with
  | Send c => exact ⟨h.1, Ident_of_NoSpace _ h.2.1⟩
  | BroadCast c => exact ⟨h.1, Ident_of_NoSpace _ h.2.1⟩
  | Login c => exact ⟨h.1, Ident_of_NoSpace _ h.2⟩
  | Logout c => exact h
  | Receive c => exact ⟨h.1, Ident_of_NoSpace _ h.2.1⟩
  | Group c =>
    exact ⟨h.1, Ident_of_NoSpace _ h.2.1,
      fun u hu => space_not_mem_of_NoSpace u (h.2.2.1 u hu), h.2.2.2⟩
  | Leave c => exact ⟨h.1, Ident_of_NoSpace _ h.2⟩

/-- The line that encodes a representable command decodes to the command. -/
theorem decodeLine_String (c : Command) (h : c.Representable) :
    decodeLine c.String.dropLast = some ⟨some c, none⟩ := by
  have hS : chatBase.String = expectedTag := by decide
  cases c with
  | Send c =>
    obtain ⟨hb, hsp, htr⟩ := h
    have hb' : c.toBaseCommand = chatBase := hb
    obtain ⟨q, qs, hq, hj⟩ := Split_body c.Data
    have hD := wire_line CmdSend c.Name c.Data (by decide) hsp
    rw [hq, switchCmd_Send_ok _ _ _ _ _ _ (by decide), hj, htr] at hD
    have he : (Command.Send c).String =
        expectedTag ++ ' ' :: (CmdSend ++ ' ' :: (c.Name ++ ' ' :: c.Data)) ++ ['\n'] := by
      simp [Command.String, SendCommand.String, Join, ProtocolSep, hb', hS]
    rw [he, List.dropLast_concat, hD, ← hb']
  | BroadCast c =>
    obtain ⟨hb, hsp, htr⟩ := h
    have hb' : c.toBaseCommand = chatBase := hb
    obtain ⟨q, qs, hq, hj⟩ := Split_body c.Data
    have hD := wire_line CmdBroadCast c.GroupName c.Data (by decide) hsp
    rw [hq, switchCmd_BroadCast_ok _ _ _ _ _ _ (by decide), hj, htr] at hD
    have he : (Command.BroadCast c).String =
        expectedTag ++ ' ' :: (CmdBroadCast ++ ' ' :: (c.GroupName ++ ' ' :: c.Data)) ++ ['\n'] := by
      simp [Command.String, BroadCastCommand.String, Join, ProtocolSep, hb', hS]
    rw [he, List.dropLast_concat, hD, ← hb']
  | Login c =>
    obtain ⟨hb, hsp, htr⟩ := h
    have hb' : c.toBaseCommand = chatBase := hb
    have hD := decodeLine_wire CmdLogin [c.Username] c.Username
      (Split_of_not_mem _ _ hsp) (by decide)
    rw [switchCmd_Login_ok _ _ _ _ (by decide), htr] at hD
    have he : (Command.Login c).String =
        expectedTag ++ ' ' :: (CmdLogin ++ ' ' :: c.Username) ++ ['\n'] := by
      simp [Command.String, LoginCommand.String, Join, ProtocolSep, hb', hS]
    rw [he, List.dropLast_concat, hD, ← hb']
  | Logout c =>
    have hb' : c.toBaseCommand = chatBase := h
    have hc : c = ⟨chatBase⟩ := by
      cases c
      simp only [LogoutCommand.mk.injEq]
      exact hb'
    subst hc
    decide
  | Receive c =>
    obtain ⟨hb, hsp, htr⟩ := h
    have hb' : c.toBaseCommand = chatBase := hb
    obtain ⟨q, qs, hq, hj⟩ := Split_body c.Data
    have hD := wire_line CmdReceive c.From c.Data (by decide) hsp
    rw [hq, switchCmd_Receive_ok _ _ _ _ _ _ (by decide), hj, htr] at hD
    have he : (Command.Receive c).String =
        expectedTag ++ ' ' :: (CmdReceive ++ ' ' :: (c.From ++ ' ' :: c.Data)) ++ ['\n'] := by
      simp [Command.String, ReceiveCommand.String, Join, ProtocolSep, hb', hS]
    rw [he, List.dropLast_concat, hD, ← hb']
  | Group c =>
    obtain ⟨hb, ⟨hsp, htr⟩, hu, hlen⟩ := h
    have hb' : c.toBaseCommand = chatBase := hb
    have hne : c.UserNames ≠ [] := by
      intro e
      rw [e] at hlen
      simp at hlen
    have hsplit : Split (Join c.UserNames ProtocolSep) ProtocolSep = c.UserNames :=
      Split_Join _ _ hne hu
    have hD := wire_line CmdGroup c.GroupName (Join c.UserNames ProtocolSep) (by decide) hsp
    rw [hsplit] at hD
    have he : (Command.Group c).String =
        expectedTag ++ ' ' :: (CmdGroup ++ ' ' :: (c.GroupName ++ ' ' ::
          Join c.UserNames ProtocolSep)) ++ ['\n'] := by
      simp [Command.String, GroupCommand.String, Join, ProtocolSep, hb', hS]
    rw [he, List.dropLast_concat, hD]
    rcases hus : c.UserNames with _ | ⟨u1, _ | ⟨u2, us⟩⟩
    · rw [hus] at hlen; simp at hlen
    · rw [hus] at hlen; simp at hlen
    · rw [switchCmd_Group_ok _ _ _ _ _ _ _ (by decide), htr, ← hus, ← hb']
  | Leave c =>
    obtain ⟨hb, hsp, htr⟩ := h
    have hb' : c.toBaseCommand = chatBase := hb
    have hD := decodeLine_wire CmdLeave [c.GroupName] c.GroupName
      (Split_of_not_mem _ _ hsp) (by decide)
    rw [switchCmd_Leave_ok _ _ _ _ _ (by decide), htr] at hD
    have he : (Command.Leave c).String =
        expectedTag ++ ' ' :: (CmdLeave ++ ' ' :: c.GroupName) ++ ['\n'] := by
      simp [Command.String, LeaveCommand.String, Join, ProtocolSep, hb', hS]
    rw [he, List.dropLast_concat, hD, ← hb']

theorem switchCmd_Representable (p0 p1 : GoString) (rest : List GoString) (c : Command)
    (hsp : ∀ p ∈ rest, ' ' ∉ p)
    (h : switchCmd chatBase (p0 :: p1 :: rest) = some ⟨some c, none⟩) :
    c.Representable := by
  by_cases hSend : TrimSpace p1 = CmdSend
  · rcases rest with _ | ⟨p2, _ | ⟨q, qs⟩⟩
    · rw [switchCmd_Send_short _ _ _ _ hSend (by simp)] at h; simp at h
    · rw [switchCmd_Send_short _ _ _ _ hSend (by simp)] at h; simp at h
    · rw [switchCmd_Send_ok _ _ _ _ _ _ hSend] at h
      simp only [Option.some.injEq, ReadResult.mk.injEq, and_true] at h
      subst h
      exact ⟨rfl, Ident_TrimSpace p2 (hsp p2 (by simp))⟩
  by_cases hBroadCast : TrimSpace p1 = CmdBroadCast
  · rcases rest with _ | ⟨p2, _ | ⟨q, qs⟩⟩
    · rw [switchCmd_BroadCast_short _ _ _ _ hBroadCast (by simp)] at h; simp at h
    · rw [switchCmd_BroadCast_short _ _ _ _ hBroadCast (by simp)] at h; simp at h
    · rw [switchCmd_BroadCast_ok _ _ _ _ _ _ hBroadCast] at h
      simp only [Option.some.injEq, ReadResult.mk.injEq, and_true] at h
      subst h
      exact ⟨rfl, Ident_TrimSpace p2 (hsp p2 (by simp))⟩
  by_cases hLogin : TrimSpace p1 = CmdLogin
  · rcases rest with _ | ⟨p2, _ | ⟨q, qs⟩⟩
    · rw [switchCmd_Login_bad _ _ _ _ hLogin (by simp)] at h; simp at h
    · rw [switchCmd_Login_ok _ _ _ _ hLogin] at h
      simp only [Option.some.injEq, ReadResult.mk.injEq, and_true] at h
      subst h
      exact ⟨rfl, Ident_TrimSpace p2 (hsp p2 (by simp))⟩
    · rw [switchCmd_Login_bad _ _ _ _ hLogin (by simp)] at h; simp at h
  by_cases hLogout : TrimSpace p1 = CmdLogout
  · rcases rest with _ | ⟨p2, qs⟩
    · rw [switchCmd_Logout_ok _ _ _ hLogout] at h
      simp only [Option.some.injEq, ReadResult.mk.injEq, and_true] at h
      subst h
      exact rfl
    · rw [switchCmd_Logout_bad _ _ _ _ hLogout (by simp)] at h; simp at h
  by_cases hReceive : TrimSpace p1 = CmdReceive
  · rcases rest with _ | ⟨p2, _ | ⟨q, qs⟩⟩
    · rw [switchCmd_Receive_short _ _ _ _ hReceive (by simp)] at h; simp at h
    · rw [switchCmd_Receive_short _ _ _ _ hReceive (by simp)] at h; simp at h
    · rw [switchCmd_Receive_ok _ _ _ _ _ _ hReceive] at h
      simp only [Option.some.injEq, ReadResult.mk.injEq, and_true] at h
      subst h
      exact ⟨rfl, Ident_TrimSpace p2 (hsp p2 (by simp))⟩
  by_cases hGroup : TrimSpace p1 = CmdGroup
  · rcases rest with _ | ⟨p2, _ | ⟨q1, _ | ⟨q2, qs⟩⟩⟩
    · rw [switchCmd_Group_short _ _ _ _ hGroup (by simp)] at h; simp at h
    · rw [switchCmd_Group_short _ _ _ _ hGroup (by simp)] at h; simp at h
    · rw [switchCmd_Group_short _ _ _ _ hGroup (by simp)] at h; simp at h
    · rw [switchCmd_Group_ok _ _ _ _ _ _ _ hGroup] at h
      simp only [Option.some.injEq, ReadResult.mk.injEq, and_true] at h
      subst h
      refine ⟨rfl, Ident_TrimSpace p2 (hsp p2 (by simp)), ?_, by simp⟩
      intro u hu
      exact hsp u (List.mem_cons_of_mem _ hu)
  by_cases hLeave : TrimSpace p1 = CmdLeave
  · rcases rest with _ | ⟨p2, qs⟩
    · rw [switchCmd_Leave_short _ _ _ hLeave] at h; simp at h
    · rw [switchCmd_Leave_ok _ _ _ _ _ hLeave] at h
      simp only [Option.some.injEq, ReadResult.mk.injEq, and_true] at h
      subst h
      exact ⟨rfl, Ident_TrimSpace p2 (hsp p2 (by simp))⟩
  · rw [switchCmd_unsupported _ _ _ _ (by
      simp [keywords, hSend, hBroadCast, hLogin, hLogout, hReceive, hGroup, hLeave])] at h
    simp at h

/-- Every command the decoder returns is representable. -/
theorem decodeLine_Representable (line : GoString) (c : Command)
    (h : decodeLine line = some ⟨some c, none⟩) : c.Representable := by
  rcases hs : Split line ProtocolSep with _ | ⟨p0, _ | ⟨p1, rest⟩⟩
  · rw [decodeLine_short line (by simp [hs])] at h; simp at h
  · rw [decodeLine_short line (by simp [hs])] at h; simp at h
  · by_cases ht : TrimSpace p0 = expectedTag
    · rw [decodeLine_goodtag line p0 p1 rest hs ht] at h
      apply switchCmd_Representable p0 p1 rest c _ h
      intro p hp
      apply not_mem_of_Split line ProtocolSep p
      rw [hs]
      simp [hp]
    · rw [decodeLine_badtag line p0 p1 rest hs ht] at h; simp at h

/-- `Read` on the encoded text of a representable command whose fields hold no
newline, whose line does not end with a carriage return and whose text fits the
reader's buffer gives the command back. -/
theorem Read_String (c : Command) (h : c.Representable) (hf : ∀ f ∈ c.fields, '\n' ∉ f)
    (hcr : c.lastText.getLast? ≠ some '\r') (hfit : utf8Len c.String ≤ defaultBufSize) :
    Read c.String = some ⟨some c, none⟩ := by
  obtain ⟨pre, he, hp, hl⟩ := String_shape c (Representable_base c h) hf
  have hD := decodeLine_String c h
  rw [he, List.dropLast_concat] at hD
  have hnl : '\n' ∉ pre ++ ' ' :: c.lastText := by
    simp only [List.mem_append, List.mem_cons, not_or]
    exact ⟨hp, by decide, hl⟩
  have hlen : utf8Len (pre ++ ' ' :: c.lastText) < defaultBufSize := by
    rw [he, utf8Len_append, utf8Len_newline] at hfit
    omega
  rw [he, Read_terminated _ hnl (getLast?_sep_body _ _ hcr) hlen, hD]

theorem utf8Len_replicate_x (n : Nat) : utf8Len (List.replicate n 'x') = n := by
  induction n with
  | zero => rfl
  | succ k ih =>
    have hx : 'x'.utf8Size = 1 := by decide
    rw [List.replicate_succ, utf8Len_cons, ih, hx]
    omega

/-- A line longer than the reader's buffer reaches the decoder cut: the `SEND`
line with the name `a` (16 bytes before the body) and a body of more than 4080
letters `x` is read as `Send{name: "a"}` with the first 4080 letters only. -/
theorem Read_cuts_long_line (m n : Nat)
    (hm : utf8Len "CHAT/1.0 SEND a ".toList + m = defaultBufSize) (hn : m < n) :
    Read ("CHAT/1.0 SEND a ".toList ++ List.replicate n 'x' ++ "\n".toList) =
      some ⟨some (.Send ⟨chatBase, "a".toList, List.replicate m 'x'⟩), none⟩ := by
  have hP : utf8Len "CHAT/1.0 SEND a ".toList = 16 := by decide
  have hPl : "CHAT/1.0 SEND a ".toList.length = 16 := by decide
  have hm' : 16 + m = defaultBufSize := by rw [← hP]; exact hm
  have hN : "\n".toList = ['\n'] := rfl
  rw [hN]
  have hnl : '\n' ∉ "CHAT/1.0 SEND a ".toList ++ List.replicate n 'x' := by
    intro hx
    rcases List.mem_append.mp hx with hx | hx
    · revert hx; decide
    · have := List.eq_of_mem_replicate hx
      revert this; decide
  have ht : ("CHAT/1.0 SEND a ".toList ++ List.replicate n 'x' ++ ['\n']).takeWhile
      (fun c => c != '\n') = "CHAT/1.0 SEND a ".toList ++ List.replicate n 'x' := by
    rw [List.takeWhile_append_of_pos]
    · simp
    · intro x hx
      simp only [bne_iff_ne, ne_eq]
      rintro rfl
      exact hnl hx
  have hlong : defaultBufSize ≤ utf8Len
      (("CHAT/1.0 SEND a ".toList ++ List.replicate n 'x' ++ ['\n']).takeWhile
        (fun c => c != '\n')) := by
    rw [ht, utf8Len_append, hP, utf8Len_replicate_x]
    omega
  have hPa : ∀ c ∈ "CHAT/1.0 SEND a ".toList, c.utf8Size = 1 := by decide
  have hascii : ∀ c ∈ "CHAT/1.0 SEND a ".toList ++ List.replicate n 'x' ++ ['\n'],
      c.utf8Size = 1 := by
    intro c hc
    rcases List.mem_append.mp hc with hc | hc
    · rcases List.mem_append.mp hc with hc | hc
      · exact hPa c hc
      · rw [List.eq_of_mem_replicate hc]; decide
    · rw [List.mem_singleton.mp hc]; decide
  have htake : ("CHAT/1.0 SEND a ".toList ++ List.replicate n 'x' ++ ['\n']).take
      defaultBufSize = "CHAT/1.0 SEND a ".toList ++ List.replicate m 'x' := by
    rw [← hm', ← hPl, List.append_assoc, List.take_append,
      List.take_append_of_le_length (by simp; omega), List.take_replicate,
      Nat.min_eq_left (Nat.le_of_lt hn)]
  have hcr : ("CHAT/1.0 SEND a ".toList ++ List.replicate m 'x').getLast? ≠ some '\r' := by
    apply getLast?_ne_of_not_mem
    intro hx
    rcases List.mem_append.mp hx with hx | hx
    · revert hx; decide
    · have := List.eq_of_mem_replicate hx
      revert this; decide
  have hRL := ReadLine_long _ (by simp) hlong
  rw [cutBytes_ascii _ _ hascii] at hRL
  simp only [htake, hcr, ↓reduceIte] at hRL
  have hsp : ' ' ∉ List.replicate m 'x' := by
    intro hx
    have := List.eq_of_mem_replicate hx
    revert this; decide
  have hD := wire_line CmdSend "a".toList (List.replicate m 'x') (by decide) (by decide)
  have hsplit : Split (List.replicate m 'x') ProtocolSep = [List.replicate m 'x'] :=
    Split_of_not_mem _ _ hsp
  have hone : ProtocolSep = ' ' := rfl
  rw [hone] at hsplit
  rw [hone, hsplit] at hD
  have hsw : switchCmd chatBase [expectedTag, CmdSend, "a".toList, List.replicate m 'x'] =
      some ⟨some (.Send ⟨chatBase, "a".toList, List.replicate m 'x'⟩), none⟩ := by
    rw [switchCmd_Send_ok _ _ _ _ _ _ (by decide)]
    have htr : TrimSpace "a".toList = "a".toList := by decide
    rw [htr]
    rfl
  rw [hsw] at hD
  have hline : "CHAT/1.0 SEND a ".toList ++ List.replicate m 'x' =
      expectedTag ++ ' ' :: (CmdSend ++ ' ' :: ("a".toList ++ ' ' :: List.replicate m 'x')) := by
    rfl
  simp only [Read, hRL, hline]
  exact hD

/-- C1, counterexample: `Send{CHAT, 1.0, name: "a b", data: "c"}` has no newline
in its fields, yet decoding its encoding `"CHAT/1.0 SEND a b c\n"` returns
`Send{name: "a", data: "b c"}`, a different command; and the encoding of
`Login{CHAT, 1.0, "a b"}` is rejected with `InvalidMessageErr`. -/
theorem roundtrip_fails_on_spaced_name :
    (∀ f ∈ (Command.Send ⟨chatBase, "a b".toList, "c".toList⟩).fields, '\n' ∉ f) ∧
    Read (Command.Send ⟨chatBase, "a b".toList, "c".toList⟩).String =
      some ⟨some (.Send ⟨chatBase, "a".toList, "b c".toList⟩), none⟩ ∧
    Read (Command.Send ⟨chatBase, "a b".toList, "c".toList⟩).String ≠
      some ⟨some (.Send ⟨chatBase, "a b".toList, "c".toList⟩), none⟩ ∧
    Read (Command.Login ⟨chatBase, "a b".toList⟩).String =
      some ⟨none, some .InvalidMessageErr⟩ := by
  decide

/-- C1, amended: for every command value of each of the seven variants,
decoding the line produced by encoding it (the `String` output without its
terminating newline) succeeds and returns a command equal to it if and only if
its tag is `CHAT/1.0`, each of its identifier fields (name, group name, user
name, from) holds no space and has no white space at either end, and, for
`Group`, the user list has at least 2 names, none of which holds a space.  For
such a command whose fields hold no newline, whose line does not end with a
carriage return and whose encoded text is at most 4096 bytes (the buffer of the
reader), `Read` on the encoded text returns the command. -/
theorem roundtrip_wellformed (c : Command) :
    (decodeLine c.String.dropLast = some ⟨some c, none⟩ ↔ c.Representable) ∧
    (c.Representable → (∀ f ∈ c.fields, '\n' ∉ f) → c.lastText.getLast? ≠ some '\r' →
      utf8Len c.String ≤ defaultBufSize → Read c.String = some ⟨some c, none⟩) :=
  ⟨⟨decodeLine_Representable _ c, decodeLine_String c⟩, Read_String c⟩

/-- Witness of C1, amended: `Send{CHAT, 1.0, "a\tb", "hello  world "}` (a tab
inside the name) and `Group{CHAT, 1.0, "g1", ["zhenghe", "xixi"]}` survive the
round trip. -/
theorem roundtrip_wellformed_witness :
    decodeLine (Command.Send ⟨chatBase, "a\tb".toList, "hello  world ".toList⟩).String.dropLast =
      some ⟨some (.Send ⟨chatBase, "a\tb".toList, "hello  world ".toList⟩), none⟩ ∧
    Read (Command.Group ⟨chatBase, "g1".toList, ["zhenghe".toList, "xixi".toList]⟩).String =
      some ⟨some (.Group ⟨chatBase, "g1".toList, ["zhenghe".toList, "xixi".toList]⟩),
        none⟩ :=
  ⟨(roundtrip_wellformed _).1.mpr (by unfold Command.Representable; decide),
   (roundtrip_wellformed _).2 (by unfold Command.Representable; decide) (by decide)
     (by decide) (by decide)⟩

/-- C2: for every identifier `n` without white space and every body `b` without
newline or carriage return (single spaces, runs of spaces, leading and trailing
spaces allowed), the line `"CHAT/1.0 SEND " ++ n ++ " " ++ b` decodes to
`Send{name: n, data: b}` with the data equal to `b` character for character;
likewise `BROADCAST` gives `Broadcast{groupName, data}` and `RECEIVE` gives
`Receive{from, data}`.  When the line is shorter than 4096 bytes (the buffer of
the reader), `Read` on the line followed by its newline gives the same
command. -/
theorem body_consumes_all_tokens (n b : GoString) (hn : NoSpace n) (hb : NoLineBreak b) :
    (decodeLine ("CHAT/1.0 SEND ".toList ++ n ++ " ".toList ++ b) =
        some ⟨some (.Send ⟨chatBase, n, b⟩), none⟩ ∧
      (utf8Len ("CHAT/1.0 SEND ".toList ++ n ++ " ".toList ++ b) < defaultBufSize →
        Read ("CHAT/1.0 SEND ".toList ++ n ++ " ".toList ++ b ++ "\n".toList) =
          some ⟨some (.Send ⟨chatBase, n, b⟩), none⟩)) ∧
    (decodeLine ("CHAT/1.0 BROADCAST ".toList ++ n ++ " ".toList ++ b) =
        some ⟨some (.BroadCast ⟨chatBase, n, b⟩), none⟩ ∧
      (utf8Len ("CHAT/1.0 BROADCAST ".toList ++ n ++ " ".toList ++ b) < defaultBufSize →
        Read ("CHAT/1.0 BROADCAST ".toList ++ n ++ " ".toList ++ b ++ "\n".toList) =
          some ⟨some (.BroadCast ⟨chatBase, n, b⟩), none⟩)) ∧
    (decodeLine ("CHAT/1.0 RECEIVE ".toList ++ n ++ " ".toList ++ b) =
        some ⟨some (.Receive ⟨chatBase, n, b⟩), none⟩ ∧
      (utf8Len ("CHAT/1.0 RECEIVE ".toList ++ n ++ " ".toList ++ b) < defaultBufSize →
        Read ("CHAT/1.0 RECEIVE ".toList ++ n ++ " ".toList ++ b ++ "\n".toList) =
          some ⟨some (.Receive ⟨chatBase, n, b⟩), none⟩)) := by
  obtain ⟨q, qs, hq, hj⟩ := Split_body b
  have hcr := getLast?_ne_of_not_mem b '\r' hb.2
  have hS := body_line CmdSend n b (by decide) hn hb.1 hcr
  have hB := body_line CmdBroadCast n b (by decide) hn hb.1 hcr
  have hR := body_line CmdReceive n b (by decide) hn hb.1 hcr
  rw [hq, switchCmd_Send_ok _ _ _ _ _ _ (by decide), hj, TrimSpace_eq_self n hn] at hS
  rw [hq, switchCmd_BroadCast_ok _ _ _ _ _ _ (by decide), hj, TrimSpace_eq_self n hn] at hB
  rw [hq, switchCmd_Receive_ok _ _ _ _ _ _ (by decide), hj, TrimSpace_eq_self n hn] at hR
  have eS : "CHAT/1.0 SEND ".toList ++ n ++ " ".toList ++ b =
      expectedTag ++ ' ' :: (CmdSend ++ ' ' :: (n ++ ' ' :: b)) := by
    simp [expectedTag, CmdSend]
  have eB : "CHAT/1.0 BROADCAST ".toList ++ n ++ " ".toList ++ b =
      expectedTag ++ ' ' :: (CmdBroadCast ++ ' ' :: (n ++ ' ' :: b)) := by
    simp [expectedTag, CmdBroadCast]
  have eR : "CHAT/1.0 RECEIVE ".toList ++ n ++ " ".toList ++ b =
      expectedTag ++ ' ' :: (CmdReceive ++ ' ' :: (n ++ ' ' :: b)) := by
    simp [expectedTag, CmdReceive]
  have eN : "\n".toList = ['\n'] := rfl
  rw [eS, eB, eR, eN]
  exact ⟨hS, hB, hR⟩

/-- Witness of C2: `"CHAT/1.0 SEND zhenghe hello world"` decodes to name
`"zhenghe"`, data `"hello world"`. -/
theorem body_consumes_all_tokens_witness :
    decodeLine ("CHAT/1.0 SEND ".toList ++ "zhenghe".toList ++ " ".toList ++
        "hello world".toList) =
      some ⟨some (.Send ⟨chatBase, "zhenghe".toList, "hello world".toList⟩), none⟩ :=
  (body_consumes_all_tokens "zhenghe".toList "hello world".toList (by decide)
    (by decide)).1.1

/-- C4: for every line, if it has fewer than 2 tokens or its first token,
trimmed, is not exactly `CHAT/1.0`, decoding fails with `InvalidMessageErr`
whatever else the line holds; otherwise, if its second token, trimmed, is not
one of the seven keywords, decoding fails with `UnsupportedCmdErr` for any
number of further tokens; and every command the decoder returns carries
Protocol `CHAT` and Version `1.0`. -/
theorem tag_and_keyword_checked (line : GoString) :
    (((tokens line).length < 2 ∨ tagOf line ≠ some expectedTag) →
      failsWith line .InvalidMessageErr) ∧
    ((2 ≤ (tokens line).length ∧ tagOf line = some expectedTag) →
      ∀ k, keywordOf line = some k → k ∉ keywords → failsWith line .UnsupportedCmdErr) ∧
    (∀ r c, decodeLine line = some r → r.cmd = some c →
      c.base = ⟨"CHAT".toList, "1.0".toList⟩) := by
  refine ⟨?_, ?_, ?_⟩
  · intro h
    unfold failsWith
    rcases hs : Split line ProtocolSep with _ | ⟨p0, _ | ⟨p1, rest⟩⟩
    · exact decodeLine_short line (by simp [hs])
    · exact decodeLine_short line (by simp [hs])
    · apply decodeLine_badtag line p0 p1 rest hs
      rcases h with h | h
      · simp only [tokens, hs, List.length_cons] at h
        omega
      · intro e
        apply h
        simp [tagOf, tokens, hs, e]
  · rintro ⟨-, ht⟩ k hk hnot
    obtain ⟨p0, p1, rest, hs, hp1, htag, -⟩ := tokens_shape line k hk
    rw [htag] at ht
    unfold failsWith
    rw [decodeLine_goodtag line p0 p1 rest hs (Option.some.inj ht)]
    exact switchCmd_unsupported _ _ _ _ (by rw [hp1]; exact hnot)
  · intro r c hr hc
    obtain ⟨r', hr', h⟩ := decodeLine_cases line
    rw [hr] at hr'
    cases hr'
    rcases h with ⟨c', rfl, hb, -⟩ | rfl | rfl
    · simp at hc
      rw [← hc]
      exact hb
    · simp at hc
    · simp at hc

/-- Witness of C4: `"hello world"`, `"HTTP/1.0 SEND hello"` and
`"CHAT/1.1 SEND hello"` fail with `InvalidMessageErr`, and
`"CHAT/1.0 STAR hello"` fails with `UnsupportedCmdErr`. -/
theorem tag_and_keyword_checked_witness :
    failsWith "hello world".toList .InvalidMessageErr ∧
    failsWith "HTTP/1.0 SEND hello".toList .InvalidMessageErr ∧
    failsWith "CHAT/1.1 SEND hello".toList .InvalidMessageErr ∧
    failsWith "CHAT/1.0 STAR hello".toList .UnsupportedCmdErr ∧
    (∀ r c, decodeLine "CHAT/1.0 LOGOUT".toList = some r → r.cmd = some c →
      c.base = ⟨"CHAT".toList, "1.0".toList⟩) :=
  ⟨(tag_and_keyword_checked "hello world".toList).1 (by decide),
   (tag_and_keyword_checked "HTTP/1.0 SEND hello".toList).1 (by decide),
   (tag_and_keyword_checked "CHAT/1.1 SEND hello".toList).1 (by decide),
   (tag_and_keyword_checked "CHAT/1.0 STAR hello".toList).2.1 (by decide)
     "STAR".toList (by decide) (by decide),
   (tag_and_keyword_checked "CHAT/1.0 LOGOUT".toList).2.2⟩

/-- C5: for every line whose tag is `CHAT/1.0`, the decoder enforces the token
count of the keyword's variant (tokens are the pieces of the line between single
spaces, tag and keyword included): a `SEND`, `BROADCAST` or `RECEIVE` line
decodes successfully iff it has at least 4 tokens, a `LOGIN` line iff it has
exactly 3, a `LOGOUT` line iff it has exactly 2, a `LEAVE` line iff it has at
least 3; every violation yields `InvalidMessageErr` and no command. -/
theorem token_count_enforced (line : GoString) (htag : tagOf line = some expectedTag) :
    (∀ k ∈ [CmdSend, CmdBroadCast, CmdReceive], keywordOf line = some k →
      (succeeds line ↔ 4 ≤ (tokens line).length) ∧
      (¬ 4 ≤ (tokens line).length → failsWith line .InvalidMessageErr)) ∧
    (keywordOf line = some CmdLogin →
      (succeeds line ↔ (tokens line).length = 3) ∧
      (¬ (tokens line).length = 3 → failsWith line .InvalidMessageErr)) ∧
    (keywordOf line = some CmdLogout →
      (succeeds line ↔ (tokens line).length = 2) ∧
      (¬ (tokens line).length = 2 → failsWith line .InvalidMessageErr)) ∧
    (keywordOf line = some CmdLeave →
      (succeeds line ↔ 3 ≤ (tokens line).length) ∧
      (¬ 3 ≤ (tokens line).length → failsWith line .InvalidMessageErr)) := by
  refine ⟨?_, ?_, ?_, ?_⟩
  · intro k hk hkw
    obtain ⟨p0, p1, rest, hs, hp1, ht, hlen⟩ := tokens_shape line k hkw
    rw [ht] at htag
    have hd := decodeLine_goodtag line p0 p1 rest hs (Option.some.inj htag)
    rw [hlen]
    simp only [List.mem_cons, List.mem_singleton, List.not_mem_nil, or_false] at hk
    rcases hk with rfl | rfl | rfl
    · rcases rest with _ | ⟨p2, _ | ⟨q, qs⟩⟩
      · exact settle_bad _ _ (hd.trans (switchCmd_Send_short _ _ _ _ hp1 (by simp)))
          (by simp)
      · exact settle_bad _ _ (hd.trans (switchCmd_Send_short _ _ _ _ hp1 (by simp)))
          (by simp)
      · exact settle_ok _ _ _ (hd.trans (switchCmd_Send_ok _ _ _ _ _ _ hp1)) (by simp)
    · rcases rest with _ | ⟨p2, _ | ⟨q, qs⟩⟩
      · exact settle_bad _ _ (hd.trans (switchCmd_BroadCast_short _ _ _ _ hp1 (by simp)))
          (by simp)
      · exact settle_bad _ _ (hd.trans (switchCmd_BroadCast_short _ _ _ _ hp1 (by simp)))
          (by simp)
      · exact settle_ok _ _ _ (hd.trans (switchCmd_BroadCast_ok _ _ _ _ _ _ hp1)) (by simp)
    · rcases rest with _ | ⟨p2, _ | ⟨q, qs⟩⟩
      · exact settle_bad _ _ (hd.trans (switchCmd_Receive_short _ _ _ _ hp1 (by simp)))
          (by simp)
      · exact settle_bad _ _ (hd.trans (switchCmd_Receive_short _ _ _ _ hp1 (by simp)))
          (by simp)
      · exact settle_ok _ _ _ (hd.trans (switchCmd_Receive_ok _ _ _ _ _ _ hp1)) (by simp)
  · intro hkw
    obtain ⟨p0, p1, rest, hs, hp1, ht, hlen⟩ := tokens_shape line _ hkw
    rw [ht] at htag
    have hd := decodeLine_goodtag line p0 p1 rest hs (Option.some.inj htag)
    rw [hlen]
    rcases rest with _ | ⟨p2, _ | ⟨q, qs⟩⟩
    · exact settle_bad _ _ (hd.trans (switchCmd_Login_bad _ _ _ _ hp1 (by simp))) (by simp)
    · exact settle_ok _ _ _ (hd.trans (switchCmd_Login_ok _ _ _ _ hp1)) (by simp)
    · exact settle_bad _ _ (hd.trans (switchCmd_Login_bad _ _ _ _ hp1 (by simp))) (by simp)
  · intro hkw
    obtain ⟨p0, p1, rest, hs, hp1, ht, hlen⟩ := tokens_shape line _ hkw
    rw [ht] at htag
    have hd := decodeLine_goodtag line p0 p1 rest hs (Option.some.inj htag)
    rw [hlen]
    rcases rest with _ | ⟨p2, qs⟩
    · exact settle_ok _ _ _ (hd.trans (switchCmd_Logout_ok _ _ _ hp1)) (by simp)
    · exact settle_bad _ _ (hd.trans (switchCmd_Logout_bad _ _ _ _ hp1 (by simp))) (by simp)
  · intro hkw
    obtain ⟨p0, p1, rest, hs, hp1, ht, hlen⟩ := tokens_shape line _ hkw
    rw [ht] at htag
    have hd := decodeLine_goodtag line p0 p1 rest hs (Option.some.inj htag)
    rw [hlen]
    rcases rest with _ | ⟨p2, qs⟩
    · exact settle_bad _ _ (hd.trans (switchCmd_Leave_short _ _ _ hp1)) (by simp)
    · exact settle_ok _ _ _ (hd.trans (switchCmd_Leave_ok _ _ _ _ _ hp1)) (by simp)

/-- Witness of C5: `"CHAT/1.0 LOGIN zhenghe"` has the tag and 3 tokens and
decodes; `"CHAT/1.0 LOGIN zhenghe xixi"` has 4 tokens and is rejected. -/
theorem token_count_enforced_witness :
    succeeds "CHAT/1.0 LOGIN zhenghe".toList ∧
    failsWith "CHAT/1.0 LOGIN zhenghe xixi".toList .InvalidMessageErr :=
  ⟨((token_count_enforced "CHAT/1.0 LOGIN zhenghe".toList (by decide)).2.1
      (by decide)).1.mpr (by decide),
   ((token_count_enforced "CHAT/1.0 LOGIN zhenghe xixi".toList (by decide)).2.1
      (by decide)).2 (by decide)⟩

/-- C10: decoding is total and safe: for every line (the empty line, a line of
separators only, a line with a tag and nothing else included) the decoder
finishes without an index-out-of-range panic and returns exactly one of a
command (with no failure) or one of its two failures, `InvalidMessageErr` or
`UnsupportedCmdErr` (with no command), never both and never neither. -/
theorem decodeLine_total (line : GoString) :
    ∃ r, decodeLine line = some r ∧
      ((∃ c, r.cmd = some c ∧ r.err = none) ∨
        (r.cmd = none ∧ (r.err = some .InvalidMessageErr ∨ r.err = some .UnsupportedCmdErr))) ∧
      ¬ (r.cmd.isSome ∧ r.err.isSome) ∧ ¬ (r.cmd = none ∧ r.err = none) := by
  obtain ⟨r, hr, h⟩ := decodeLine_cases line
  refine ⟨r, hr, ?_⟩
  rcases h with ⟨c, rfl, -, -⟩ | rfl | rfl <;> simp

/-- C6, counterexample: the 4-token line `"CHAT/1.0 GROUP g1 zhenghe"`, a group
name and one member name without white space, is rejected with
`InvalidMessageErr` instead of decoding to `Group{g1, [zhenghe]}`. -/
theorem group_one_member_rejected :
    NoSpace "g1".toList ∧ NoSpace "zhenghe".toList ∧
    decodeLine ("CHAT/1.0 GROUP ".toList ++ "g1".toList ++ " ".toList ++ "zhenghe".toList) =
      some ⟨none, some .InvalidMessageErr⟩ ∧
    decodeLine ("CHAT/1.0 GROUP ".toList ++ "g1".toList ++ " ".toList ++ "zhenghe".toList) ≠
      some ⟨some (.Group ⟨chatBase, "g1".toList, ["zhenghe".toList]⟩), none⟩ := by
  decide

/-- C6, amended: a `GROUP` line is accepted as soon as it carries a group name
and two member tokens: for every group name `g` and member names `m1`, `m2`
without white space, `"CHAT/1.0 GROUP " ++ g ++ " " ++ m1 ++ " " ++ m2`
(5 tokens) decodes to `Group{groupName: g, usernames: [m1, m2]}`; and a `GROUP`
line with the tag `CHAT/1.0` is rejected as malformed exactly when it has fewer
than 5 tokens, and decodes otherwise. -/
theorem group_needs_two_members (g m1 m2 : GoString) (hg : NoSpace g) (h1 : NoSpace m1)
    (h2 : NoSpace m2) :
    decodeLine ("CHAT/1.0 GROUP ".toList ++ g ++ " ".toList ++ m1 ++ " ".toList ++ m2) =
      some ⟨some (.Group ⟨chatBase, g, [m1, m2]⟩), none⟩ ∧
    ∀ line, tagOf line = some expectedTag → keywordOf line = some CmdGroup →
      (failsWith line .InvalidMessageErr ↔ (tokens line).length < 5) ∧
      (succeeds line ↔ 5 ≤ (tokens line).length) := by
  constructor
  · have hs : Split (g ++ ' ' :: (m1 ++ ' ' :: m2)) ProtocolSep = [g, m1, m2] := by
      simp only [ProtocolSep]
      rw [Split_append _ _ _ (space_not_mem_of_NoSpace g hg),
        Split_append _ _ _ (space_not_mem_of_NoSpace m1 h1),
        Split_of_not_mem _ _ (space_not_mem_of_NoSpace m2 h2)]
    have hd := decodeLine_wire CmdGroup _ _ hs (by decide)
    rw [switchCmd_Group_ok _ _ _ _ _ _ _ (by decide), TrimSpace_eq_self g hg] at hd
    simpa [expectedTag, CmdGroup] using hd
  · intro line htag hkw
    obtain ⟨p0, p1, rest, hs, hp1, ht, hlen⟩ := tokens_shape line _ hkw
    rw [ht] at htag
    have hd := decodeLine_goodtag line p0 p1 rest hs (Option.some.inj htag)
    rw [hlen]
    unfold failsWith succeeds
    rw [hd]
    rcases rest with _ | ⟨p2, _ | ⟨q1, _ | ⟨q2, qs⟩⟩⟩
    · rw [switchCmd_Group_short _ _ _ _ hp1 (by simp)]; simp
    · rw [switchCmd_Group_short _ _ _ _ hp1 (by simp)]; simp
    · rw [switchCmd_Group_short _ _ _ _ hp1 (by simp)]; simp
    · rw [switchCmd_Group_ok _ _ _ _ _ _ _ hp1]; simp

/-- Witness of C6, amended: `"CHAT/1.0 GROUP g1 zhenghe xixi"` decodes to
`Group{g1, [zhenghe, xixi]}`. -/
theorem group_needs_two_members_witness :
    decodeLine ("CHAT/1.0 GROUP ".toList ++ "g1".toList ++ " ".toList ++ "zhenghe".toList
        ++ " ".toList ++ "xixi".toList) =
      some ⟨some (.Group ⟨chatBase, "g1".toList, ["zhenghe".toList, "xixi".toList]⟩),
        none⟩ :=
  (group_needs_two_members "g1".toList "zhenghe".toList "xixi".toList (by decide)
    (by decide) (by decide)).1

/-- C7, the failing input: on `"CHAT/1.0 GROUP g1 \tzhenghe xixi"` the decoder
returns a `Group` command whose first user name is `"\tzhenghe"`, with its
leading tab, an identifier field that differs from its own trim: the user names
are the raw tokens `parts[3:]`, while the group name in the same branch and the
user name of `LOGIN` are trimmed. -/
theorem group_usernames_not_trimmed :
    decodeLine "CHAT/1.0 GROUP g1 \tzhenghe xixi".toList =
      some ⟨some (.Group ⟨chatBase, "g1".toList, ["\tzhenghe".toList, "xixi".toList]⟩),
        none⟩ ∧
    "\tzhenghe".toList ∈
      (Command.Group ⟨chatBase, "g1".toList, ["\tzhenghe".toList, "xixi".toList]⟩).identifiers ∧
    TrimSpace "\tzhenghe".toList ≠ "\tzhenghe".toList ∧
    decodeLine "CHAT/1.0 LOGIN \tzhenghe".toList =
      some ⟨some (.Login ⟨chatBase, "zhenghe".toList⟩), none⟩ := by
  decide

/-- C8, counterexample: the protocol-mismatch lines `"HTTP/1.0 SEND hello"` and
`"CHAT/1.1 SEND hello"` fail with the very same failure value,
`InvalidMessageErr`, as the malformed line `"hello world"`. -/
theorem mismatch_not_distinguished :
    protocolMismatch "HTTP/1.0 SEND hello".toList ∧
    protocolMismatch "CHAT/1.1 SEND hello".toList ∧
    malformedFrame "hello world".toList ∧
    decodeLine "HTTP/1.0 SEND hello".toList = decodeLine "hello world".toList ∧
    decodeLine "CHAT/1.1 SEND hello".toList = decodeLine "hello world".toList ∧
    decodeLine "hello world".toList = some ⟨none, some .InvalidMessageErr⟩ := by
  refine ⟨⟨by decide, _, _, _, rfl, rfl, by decide⟩, ⟨by decide, _, _, _, rfl, rfl, by decide⟩,
    Or.inr ⟨_, rfl, by decide⟩, by decide, by decide, by decide⟩

/-- C8, amended: the decoder does not distinguish a protocol mismatch from a
malformed frame: every line with at least 2 tokens whose first token parses as
`<name>/<version>` with a name or version other than `CHAT` / `1.0` fails with
`InvalidMessageErr`, the same failure value that is returned for a line with
fewer than 2 tokens or a tag not of the form `<name>/<version>`. -/
theorem mismatch_same_failure (l1 l2 : GoString) (h1 : protocolMismatch l1)
    (h2 : malformedFrame l2) :
    failsWith l1 .InvalidMessageErr ∧ failsWith l2 .InvalidMessageErr ∧
    decodeLine l1 = decodeLine l2 := by
  have hl1 : failsWith l1 .InvalidMessageErr := by
    obtain ⟨hlen, p0, a, b, hp0, hs, hab⟩ := h1
    unfold tokens at hlen hp0
    unfold failsWith
    rcases hsp : Split l1 ProtocolSep with _ | ⟨q0, _ | ⟨q1, rest⟩⟩
    · simp [hsp] at hlen
    · simp [hsp] at hlen
    · simp only [hsp, List.getElem?_cons_zero, Option.some.injEq] at hp0
      subst hp0
      apply decodeLine_badtag l1 q0 q1 rest hsp
      intro e
      rw [e, Split_tag] at hs
      simp only [List.cons.injEq, and_true] at hs
      rcases hab with hab | hab
      · exact hab hs.1.symm
      · exact hab hs.2.symm
  have hl2 : failsWith l2 .InvalidMessageErr := by
    unfold failsWith
    rcases hsp : Split l2 ProtocolSep with _ | ⟨q0, _ | ⟨q1, rest⟩⟩
    · exact decodeLine_short l2 (by simp [hsp])
    · exact decodeLine_short l2 (by simp [hsp])
    · rcases h2 with h2 | ⟨p0, hp0, hs⟩
      · simp only [tokens, hsp, List.length_cons] at h2
        omega
      · simp only [tokens, hsp, List.getElem?_cons_zero, Option.some.injEq] at hp0
        subst hp0
        apply decodeLine_badtag l2 q0 q1 rest hsp
        intro e
        rw [e, Split_tag] at hs
        simp at hs
  exact ⟨hl1, hl2, hl1.trans hl2.symm⟩

/-- Witness of C8, amended: `"HTTP/1.0 SEND hello"` (protocol mismatch) and
`"hello world"` (malformed frame) both fail with `InvalidMessageErr`. -/
theorem mismatch_same_failure_witness :
    failsWith "HTTP/1.0 SEND hello".toList .InvalidMessageErr ∧
    failsWith "hello world".toList .InvalidMessageErr ∧
    decodeLine "HTTP/1.0 SEND hello".toList = decodeLine "hello world".toList :=
  mismatch_same_failure "HTTP/1.0 SEND hello".toList "hello world".toList
    ⟨by decide, "HTTP/1.0".toList, "HTTP".toList, "1.0".toList, rfl, rfl,
      Or.inl (by decide)⟩
    (Or.inr ⟨"hello".toList, rfl, by decide⟩)

end protocol

namespace server

open protocol

/-! ## Lemmas on the fan-out loops -/

theorem handleSend_range_filter (s : TcpChatServer) (env : IOOutcomes) (cc : ConnId)
    (cmd : SendCommand) (order : List ConnId) :
    handleSend.range s env cc cmd order =
      handleSend.range s env cc cmd
        (order.filter (fun scc => (s.heap scc).name = cmd.Name)) := by
  induction order with
  | nil => rfl
  | cons x xs ih =>
    by_cases hx : (s.heap x).name = cmd.Name
    · simp only [List.filter_cons, hx, decide_True, ↓reduceIte, handleSend.range]
      cases env (Effect.write x (receiveFor s cc cmd.toBaseCommand cmd.Data)) with
      | some e => rfl
      | none => simp only [ih]
    · simp only [List.filter_cons, hx, decide_False, handleSend.range, ↓reduceIte]
      exact ih

theorem handleSend_range_ok (s : TcpChatServer) (env : IOOutcomes) (cc : ConnId)
    (cmd : SendCommand) (l : List ConnId) (hm : ∀ x ∈ l, (s.heap x).name = cmd.Name)
    (hok : ∀ x ∈ l, env (.write x (receiveFor s cc cmd.toBaseCommand cmd.Data)) = none) :
    handleSend.range s env cc cmd l =
      (l.map (fun x => .write x (receiveFor s cc cmd.toBaseCommand cmd.Data)), none) := by
  induction l with
  | nil => rfl
  | cons x xs ih =>
    have h1 := hm x (by simp)
    have h2 := hok x (by simp)
    have ih' := ih (fun y hy => hm y (by simp [hy])) (fun y hy => hok y (by simp [hy]))
    simp only [handleSend.range, h1, ↓reduceIte, h2, ih', List.map_cons]

theorem handleSend_range_fail (s : TcpChatServer) (env : IOOutcomes) (cc : ConnId)
    (cmd : SendCommand) (pre post : List ConnId) (f : ConnId) (e : IOError)
    (hm : ∀ x ∈ pre, (s.heap x).name = cmd.Name)
    (hok : ∀ x ∈ pre, env (.write x (receiveFor s cc cmd.toBaseCommand cmd.Data)) = none)
    (hf : (s.heap f).name = cmd.Name)
    (he : env (.write f (receiveFor s cc cmd.toBaseCommand cmd.Data)) = some e) :
    handleSend.range s env cc cmd (pre ++ f :: post) =
      ((pre ++ [f]).map (fun x => .write x (receiveFor s cc cmd.toBaseCommand cmd.Data)),
        some e) := by
  induction pre with
  | nil => simp only [List.nil_append, handleSend.range, hf, ↓reduceIte, he, List.map_cons,
      List.map_nil]
  | cons x xs ih =>
    have h1 := hm x (by simp)
    have h2 := hok x (by simp)
    have ih' := ih (fun y hy => hm y (by simp [hy])) (fun y hy => hok y (by simp [hy]))
    simp only [List.cons_append, handleSend.range, h1, ↓reduceIte, h2, List.append_eq, ih',
      List.map_cons]

theorem handleSend_range_err_none (s : TcpChatServer) (env : IOOutcomes) (cc : ConnId)
    (cmd : SendCommand) (l : List ConnId)
    (h : (handleSend.range s env cc cmd l).2 = none) :
    ∀ w ∈ (handleSend.range s env cc cmd l).1, env w = none := by
  induction l with
  | nil => simp [handleSend.range]
  | cons x xs ih =>
    by_cases hx : (s.heap x).name = cmd.Name
    · simp only [handleSend.range, hx, ↓reduceIte] at h ⊢
      cases he : env (Effect.write x (receiveFor s cc cmd.toBaseCommand cmd.Data)) with
      | some e => simp [he] at h
      | none =>
        simp only [he] at h ⊢
        intro w hw
        rcases List.mem_cons.mp hw with rfl | hw
        · exact he
        · exact ih h w hw
    · simp only [handleSend.range, hx, ↓reduceIte] at h ⊢
      exact ih h

/-- Among the writes to the sessions of a duplicate-free list, those addressed
to `scc` are the one write to `scc` when it is in the list, and none
otherwise. -/
theorem filter_target_map_write (l : List ConnId) (cmd : Command) (scc : ConnId)
    (hn : l.Nodup) :
    (l.map (fun x => Effect.write x cmd)).filter (fun e => e.target = scc) =
      if scc ∈ l then [Effect.write scc cmd] else [] := by
  have ht : ∀ y, (Effect.write y cmd).target = y := fun _ => rfl
  induction l with
  | nil => simp
  | cons x xs ih =>
    have hx : x ∉ xs := (List.nodup_cons.mp hn).1
    have ih' := ih (List.nodup_cons.mp hn).2
    by_cases h : x = scc
    · subst h
      simp only [List.map_cons, List.filter_cons, ht, decide_True, ↓reduceIte,
        List.mem_cons, true_or, ih', hx]
    · have h' : ¬ scc = x := fun e => h e.symm
      simp only [List.map_cons, List.filter_cons, ht, h, decide_False,
        List.mem_cons, h', false_or, ih']
      simp

theorem handleBroadcast_range_effects (s : TcpChatServer) (env : IOOutcomes) (cc : ConnId)
    (cmd : BroadCastCommand) (userNames : List GoString) (err : Option IOError)
    (order : List ConnId) :
    (handleBroadcast.range s env cc cmd userNames err order).1 =
      (order.filter (fun scc => scc ≠ cc ∧ (s.heap scc).name ∈ userNames)).map
        (fun x => .write x (receiveFor s cc cmd.toBaseCommand cmd.Data)) := by
  induction order generalizing err with
  | nil => rfl
  | cons x xs ih =>
    by_cases h1 : x = cc
    · simp only [handleBroadcast.range, h1, ↓reduceIte, List.filter_cons, ne_eq,
        not_true_eq_false, false_and, decide_False]
      exact ih err
    · by_cases h2 : (s.heap x).name ∈ userNames
      · simp only [handleBroadcast.range, h1, ↓reduceIte, h2, List.filter_cons, ne_eq,
          not_false_eq_true, and_self, decide_True, List.map_cons, ih]
      · simp only [handleBroadcast.range, h1, ↓reduceIte, h2, List.filter_cons, ne_eq,
          not_false_eq_true, and_false, decide_False]
        exact ih err

/-- What `handleBroadcast` returns: the outcome of the last write it attempted,
whatever the earlier ones gave. -/
theorem handleBroadcast_range_err (s : TcpChatServer) (env : IOOutcomes) (cc : ConnId)
    (cmd : BroadCastCommand) (userNames : List GoString) (err : Option IOError)
    (order : List ConnId) :
    (handleBroadcast.range s env cc cmd userNames err order).2 =
      match (handleBroadcast.range s env cc cmd userNames err order).1.getLast? with
      | none => err
      | some w => env w := by
  induction order generalizing err with
  | nil => rfl
  | cons x xs ih =>
    by_cases h1 : x = cc
    · simp only [handleBroadcast.range, h1, ↓reduceIte]
      exact ih err
    · by_cases h2 : (s.heap x).name ∈ userNames
      · simp only [handleBroadcast.range, h1, ↓reduceIte, h2]
        rw [ih]
        cases hl : (handleBroadcast.range s env cc cmd userNames
            (env (Effect.write x (receiveFor s cc cmd.toBaseCommand cmd.Data))) xs).1 with
        | nil => simp
        | cons y ys =>
          rw [List.getLast?_cons_cons]
          cases hy : (y :: ys).getLast? with
          | none => simp at hy
          | some z => rfl
      · simp only [handleBroadcast.range, h1, ↓reduceIte, h2]
        exact ih err


/-! ## Theorems on the handlers -/

/-- C11: for every registry state, every sender session (named or not), every
`Send{name, data}` and every iteration order, when all sink writes succeed
`handleSend` delivers exactly one `Receive{from: sender's display name, data}`,
carrying the tag of the `Send`, to each live session whose display name equals
`name` (the sender included only if its own name equals `name`), delivers
nothing to any other session, returns success, and leaves the registry (session
set, names, group map) unchanged. -/
theorem handleSend_delivers_by_name (s : TcpChatServer) (env : IOOutcomes)
    (order : List ConnId) (cc : ConnId) (cmd : SendCommand)
    (hperm : order.Perm s.clientConnSet) (hnodup : s.clientConnSet.Nodup)
    (hok : ∀ e, env e = none) :
    (∀ scc, (handleSend s env order cc cmd).effects.filter (fun e => e.target = scc) =
      if scc ∈ s.clientConnSet ∧ (s.heap scc).name = cmd.Name then
        [.write scc (.Receive ⟨cmd.toBaseCommand, (s.heap cc).name, cmd.Data⟩)]
      else []) ∧
    (handleSend s env order cc cmd).err = none ∧
    (handleSend s env order cc cmd).state = s := by
  have hr : handleSend.range s env cc cmd order =
      ((order.filter (fun scc => (s.heap scc).name = cmd.Name)).map
        (fun x => .write x (receiveFor s cc cmd.toBaseCommand cmd.Data)), none) := by
    rw [handleSend_range_filter]
    apply handleSend_range_ok
    · intro x hx
      simpa using (List.mem_filter.mp hx).2
    · intro x _
      exact hok _
  refine ⟨?_, ?_, rfl⟩
  · intro scc
    have hnd : (order.filter (fun scc => (s.heap scc).name = cmd.Name)).Nodup :=
      ((hperm.nodup_iff).mpr hnodup).filter _
    simp only [handleSend, hr]
    rw [filter_target_map_write _ _ _ hnd]
    simp only [List.mem_filter, hperm.mem_iff, decide_eq_true_eq, receiveFor]
  · simp only [handleSend, hr]

/-- Witness of C11: with live sessions named `a`, `b`, `c`, `Send{name: "b",
data: "hi"}` from `a` delivers one `Receive{from: "a", data: "hi"}` to `b` and
nothing to `a`. -/
theorem handleSend_delivers_by_name_witness :
    (handleSend abcServer allSucceed [3, 1, 2] 1
        ⟨chatBase, "b".toList, "hi".toList⟩).effects.filter (fun e => e.target = 2) =
      [.write 2 (.Receive ⟨chatBase, "a".toList, "hi".toList⟩)] ∧
    (handleSend abcServer allSucceed [3, 1, 2] 1
        ⟨chatBase, "b".toList, "hi".toList⟩).effects.filter (fun e => e.target = 1) = [] :=
  ⟨(handleSend_delivers_by_name abcServer allSucceed [3, 1, 2] 1
      ⟨chatBase, "b".toList, "hi".toList⟩ (by decide) (by decide) (fun _ => rfl)).1 2,
   (handleSend_delivers_by_name abcServer allSucceed [3, 1, 2] 1
      ⟨chatBase, "b".toList, "hi".toList⟩ (by decide) (by decide) (fun _ => rfl)).1 1⟩

/-- C12: for every registry state, sender session, `Broadcast{groupName, data}`,
iteration order and assignment of write outcomes: if `groupName` is not a key of
the group map, `handleBroadcast` attempts no delivery, returns no failure and
changes no state; otherwise the sessions to which a delivery is attempted are
exactly the live sessions other than the sender (by identity) whose display
name occurs in the member list, each exactly once, whatever the write outcomes,
each with the command `Receive{from: sender's display name, data}`; the sender
is never a target of its own `Broadcast`. -/
theorem handleBroadcast_targets (s : TcpChatServer) (env : IOOutcomes)
    (order : List ConnId) (cc : ConnId) (cmd : BroadCastCommand)
    (hperm : order.Perm s.clientConnSet) (hnodup : s.clientConnSet.Nodup) :
    (s.groupToMembers cmd.GroupName = none →
      (handleBroadcast s env order cc cmd).effects = [] ∧
      (handleBroadcast s env order cc cmd).err = none ∧
      (handleBroadcast s env order cc cmd).state = s) ∧
    (∀ userNames, s.groupToMembers cmd.GroupName = some userNames →
      (∀ scc, (handleBroadcast s env order cc cmd).effects.filter
          (fun e => e.target = scc) =
        if scc ∈ s.clientConnSet ∧ scc ≠ cc ∧ (s.heap scc).name ∈ userNames then
          [.write scc (.Receive ⟨cmd.toBaseCommand, (s.heap cc).name, cmd.Data⟩)]
        else []) ∧
      (handleBroadcast s env order cc cmd).state = s) ∧
    (∀ e ∈ (handleBroadcast s env order cc cmd).effects, e.target ≠ cc) := by
  refine ⟨?_, ?_, ?_⟩
  · intro h
    simp only [handleBroadcast, h, and_self]
  · intro userNames h
    refine ⟨?_, by simp only [handleBroadcast, h]⟩
    intro scc
    have hnd : (order.filter
        (fun scc => scc ≠ cc ∧ (s.heap scc).name ∈ userNames)).Nodup :=
      ((hperm.nodup_iff).mpr hnodup).filter _
    simp only [handleBroadcast, h, handleBroadcast_range_effects]
    rw [filter_target_map_write _ _ _ hnd]
    simp only [List.mem_filter, hperm.mem_iff, decide_eq_true_eq, receiveFor]
  · intro e he
    cases h : s.groupToMembers cmd.GroupName with
    | none => simp [handleBroadcast, h] at he
    | some userNames =>
      simp only [handleBroadcast, h, handleBroadcast_range_effects, List.mem_map,
        List.mem_filter, decide_eq_true_eq] at he
      obtain ⟨x, ⟨-, hx, -⟩, rfl⟩ := he
      exact hx

/-- Witness of C12: in the registry with sessions `a`, `b`, `c` and the group
`g1` of members `b`, `c`, `a`, a `Broadcast` to `g1` by `a`, with the write to
`b` failing, is attempted once for `b`, once for `c`, and not for `a`. -/
theorem handleBroadcast_targets_witness :
    (handleBroadcast abcServer failAt2 [2, 1, 3] 1
        ⟨chatBase, "g1".toList, "hi".toList⟩).effects.filter (fun e => e.target = 2) =
      [.write 2 (.Receive ⟨chatBase, "a".toList, "hi".toList⟩)] ∧
    (handleBroadcast abcServer failAt2 [2, 1, 3] 1
        ⟨chatBase, "g1".toList, "hi".toList⟩).effects.filter (fun e => e.target = 3) =
      [.write 3 (.Receive ⟨chatBase, "a".toList, "hi".toList⟩)] ∧
    (handleBroadcast abcServer failAt2 [2, 1, 3] 1
        ⟨chatBase, "g1".toList, "hi".toList⟩).effects.filter (fun e => e.target = 1) = [] :=
  ⟨((handleBroadcast_targets abcServer failAt2 [2, 1, 3] 1
      ⟨chatBase, "g1".toList, "hi".toList⟩ (by decide) (by decide)).2.1 _ rfl).1 2,
   ((handleBroadcast_targets abcServer failAt2 [2, 1, 3] 1
      ⟨chatBase, "g1".toList, "hi".toList⟩ (by decide) (by decide)).2.1 _ rfl).1 3,
   ((handleBroadcast_targets abcServer failAt2 [2, 1, 3] 1
      ⟨chatBase, "g1".toList, "hi".toList⟩ (by decide) (by decide)).2.1 _ rfl).1 1⟩

/-- C13: `handleSend` is fail-fast, for every iteration order and every
assignment of write outcomes: when the matching sessions in iteration order are
`pre ++ f :: post`, the writes to `pre` succeed and the write to `f` fails with
`e`, the attempts are exactly the writes to `pre` and to `f` (none to `post`)
and `handleSend` returns `e`; and it returns success only if no attempted write
failed. -/
theorem handleSend_fail_fast (s : TcpChatServer) (env : IOOutcomes) (order : List ConnId)
    (cc : ConnId) (cmd : SendCommand) :
    (∀ pre f post e,
      order.filter (fun scc => (s.heap scc).name = cmd.Name) = pre ++ f :: post →
      (∀ x ∈ pre, env (.write x (.Receive ⟨cmd.toBaseCommand, (s.heap cc).name, cmd.Data⟩))
        = none) →
      env (.write f (.Receive ⟨cmd.toBaseCommand, (s.heap cc).name, cmd.Data⟩)) = some e →
      (handleSend s env order cc cmd).effects =
        (pre ++ [f]).map
          (fun x => .write x (.Receive ⟨cmd.toBaseCommand, (s.heap cc).name, cmd.Data⟩)) ∧
      (handleSend s env order cc cmd).err = some e) ∧
    ((handleSend s env order cc cmd).err = none →
      ∀ w ∈ (handleSend s env order cc cmd).effects, env w = none) := by
  refine ⟨?_, ?_⟩
  · intro pre f post e hsplit hpre hf
    have hall : ∀ x ∈ pre ++ f :: post, (s.heap x).name = cmd.Name := by
      intro x hx
      rw [← hsplit] at hx
      simpa using (List.mem_filter.mp hx).2
    have hr := handleSend_range_fail s env cc cmd pre post f e
      (fun x hx => hall x (by simp [hx])) hpre (hall f (by simp)) hf
    simp only [handleSend]
    rw [handleSend_range_filter, hsplit, hr]
    exact ⟨rfl, rfl⟩
  · intro h
    exact handleSend_range_err_none s env cc cmd order h

/-- Witness of C13: with sessions 2 and 3 both named `b` and the write to
session 2 failing, a `Send` to `b` visiting 2 first attempts the write to 2
only and returns its error; visiting 3 first it attempts 3, then 2, and returns
the error of 2. -/
theorem handleSend_fail_fast_witness :
    ((handleSend twinServer failAt2 [2, 3, 1] 1 ⟨chatBase, "b".toList, "hi".toList⟩).effects =
        [.write 2 (.Receive ⟨chatBase, "a".toList, "hi".toList⟩)] ∧
      (handleSend twinServer failAt2 [2, 3, 1] 1 ⟨chatBase, "b".toList, "hi".toList⟩).err =
        some ⟨7⟩) ∧
    ((handleSend twinServer failAt2 [3, 2, 1] 1 ⟨chatBase, "b".toList, "hi".toList⟩).effects =
        [.write 3 (.Receive ⟨chatBase, "a".toList, "hi".toList⟩),
         .write 2 (.Receive ⟨chatBase, "a".toList, "hi".toList⟩)] ∧
      (handleSend twinServer failAt2 [3, 2, 1] 1 ⟨chatBase, "b".toList, "hi".toList⟩).err =
        some ⟨7⟩) ∧
    (∀ w ∈ (handleSend twinServer allSucceed [3, 2, 1] 1
        ⟨chatBase, "b".toList, "hi".toList⟩).effects, allSucceed w = none) :=
  ⟨(handleSend_fail_fast twinServer failAt2 [2, 3, 1] 1
      ⟨chatBase, "b".toList, "hi".toList⟩).1 [] 2 [3] ⟨7⟩ (by decide) (by decide) (by decide),
   (handleSend_fail_fast twinServer failAt2 [3, 2, 1] 1
      ⟨chatBase, "b".toList, "hi".toList⟩).1 [3] 2 [] ⟨7⟩ (by decide) (by decide) (by decide),
   (handleSend_fail_fast twinServer allSucceed [3, 2, 1] 1
      ⟨chatBase, "b".toList, "hi".toList⟩).2 (by decide)⟩

/-- C14, the failing input: in the registry with sessions `a`, `b`, `c` and the
group `g1` of members `b`, `c`, `a`, a `Broadcast` to `g1` by `a` that visits
`b` before `c`, with the write to `b` failing and the write to `c` succeeding,
attempts both writes and returns `nil`: the failure of the write to `b` is
overwritten by the later success.  Visiting `c` before `b` it returns the
failure. -/
theorem handleBroadcast_drops_earlier_failure :
    (handleBroadcast abcServer failAt2 [1, 2, 3] 1
        ⟨chatBase, "g1".toList, "hi".toList⟩).effects =
      [.write 2 (.Receive ⟨chatBase, "a".toList, "hi".toList⟩),
       .write 3 (.Receive ⟨chatBase, "a".toList, "hi".toList⟩)] ∧
    failAt2 (.write 2 (.Receive ⟨chatBase, "a".toList, "hi".toList⟩)) = some ⟨7⟩ ∧
    failAt2 (.write 3 (.Receive ⟨chatBase, "a".toList, "hi".toList⟩)) = none ∧
    (handleBroadcast abcServer failAt2 [1, 2, 3] 1
        ⟨chatBase, "g1".toList, "hi".toList⟩).err = none ∧
    (handleBroadcast abcServer failAt2 [1, 3, 2] 1
        ⟨chatBase, "g1".toList, "hi".toList⟩).err = some ⟨7⟩ := by
  decide

theorem foldl_append_ne (n : GoString) (members init : List GoString) :
    members.foldl
        (fun userNames userName => if userName ≠ n then userNames ++ [userName] else userNames)
        init =
      init ++ members.filter (fun userName => userName ≠ n) := by
  induction members generalizing init with
  | nil => simp
  | cons u us ih =>
    by_cases h : u = n
    · simp only [List.foldl_cons, ne_eq, h, not_true_eq_false, ↓reduceIte, List.filter_cons,
        decide_False]
      exact ih init
    · simp only [List.foldl_cons, ne_eq, h, not_false_eq_true, ↓reduceIte, List.filter_cons,
        decide_True]
      rw [ih]
      simp

theorem handleLeave_readSection_some (s : TcpChatServer) (cc : ConnId) (cmd : LeaveCommand)
    (members : List GoString) (h : s.groupToMembers cmd.GroupName = some members) :
    handleLeave.readSection s cc cmd =
      some ⟨cmd.GroupName, members.filter (fun userName => userName ≠ (s.heap cc).name)⟩ := by
  simp only [handleLeave.readSection, h, foldl_append_ne, List.nil_append]

/-- C15: group creation is first-writer-wins and idempotent when the calls run
one after the other: if `groupName` is absent from the group map, then after
`handleGroup` its member list is exactly `usernames`, every other group, the
session set and the names are unchanged; if it is present, `handleGroup`
changes nothing; either way no delivery is attempted and no failure returned.
Hence a second `Group` command with the same name changes nothing, and after
two such commands on a map without the name the member list is that of the
first. -/
theorem handleGroup_first_writer_wins (s : TcpChatServer) (cc : ConnId) (cmd : GroupCommand) :
    (s.groupToMembers cmd.GroupName = none →
      (handleGroup s cc cmd).state.groupToMembers cmd.GroupName = some cmd.UserNames ∧
      (∀ g, g ≠ cmd.GroupName →
        (handleGroup s cc cmd).state.groupToMembers g = s.groupToMembers g) ∧
      (handleGroup s cc cmd).state.clientConnSet = s.clientConnSet ∧
      (handleGroup s cc cmd).state.heap = s.heap) ∧
    (∀ members, s.groupToMembers cmd.GroupName = some members →
      (handleGroup s cc cmd).state = s) ∧
    ((handleGroup s cc cmd).effects = [] ∧ (handleGroup s cc cmd).err = none) ∧
    (∀ cc2 cmd2, cmd2.GroupName = cmd.GroupName →
      (handleGroup (handleGroup s cc cmd).state cc2 cmd2).state = (handleGroup s cc cmd).state) ∧
    (∀ cc2 cmd2, cmd2.GroupName = cmd.GroupName → s.groupToMembers cmd.GroupName = none →
      (handleGroup (handleGroup s cc cmd).state cc2 cmd2).state.groupToMembers cmd.GroupName =
        some cmd.UserNames) := by
  have habsent : s.groupToMembers cmd.GroupName = none →
      (handleGroup s cc cmd).state = writeSection s ⟨cmd.GroupName, cmd.UserNames⟩ := by
    intro h
    simp only [handleGroup, handleGroup.readSection, h]
  have hpresent : ∀ (t : TcpChatServer) (c : ConnId) (d : GroupCommand) members,
      t.groupToMembers d.GroupName = some members → (handleGroup t c d).state = t := by
    intro t c d members h
    simp only [handleGroup, handleGroup.readSection, h]
  have hafter : ∃ members, (handleGroup s cc cmd).state.groupToMembers cmd.GroupName =
      some members := by
    cases h : s.groupToMembers cmd.GroupName with
    | none => exact ⟨cmd.UserNames, by rw [habsent h]; simp [writeSection]⟩
    | some members => exact ⟨members, by rw [hpresent s cc cmd members h]; exact h⟩
  refine ⟨?_, ?_, ?_, ?_, ?_⟩
  · intro h
    rw [habsent h]
    refine ⟨by simp [writeSection], ?_, rfl, rfl⟩
    intro g hg
    simp [writeSection, Function.update_noteq hg]
  · intro members h
    exact hpresent s cc cmd members h
  · cases h : handleGroup.readSection s cmd <;> simp [handleGroup, h]
  · intro cc2 cmd2 hname
    obtain ⟨members, hm⟩ := hafter
    exact hpresent _ cc2 cmd2 members (by rw [hname]; exact hm)
  · intro cc2 cmd2 hname h
    obtain ⟨members, hm⟩ := hafter
    rw [hpresent _ cc2 cmd2 members (by rw [hname]; exact hm), habsent h]
    simp [writeSection]

/-- Witness of C15: on a registry without groups, `Group{g1, [x, y]}` followed
by `Group{g1, [y]}` leaves `g1` with the members `x`, `y`. -/
theorem handleGroup_first_writer_wins_witness :
    (handleGroup (handleGroup noGroupServer 1
        ⟨chatBase, "g1".toList, ["x".toList, "y".toList]⟩).state 2
        ⟨chatBase, "g1".toList, ["y".toList]⟩).state.groupToMembers "g1".toList =
      some ["x".toList, "y".toList] :=
  (handleGroup_first_writer_wins noGroupServer 1
    ⟨chatBase, "g1".toList, ["x".toList, "y".toList]⟩).2.2.2.2 2
    ⟨chatBase, "g1".toList, ["y".toList]⟩ rfl rfl

/-- C16: for every registry state, session and `Leave{groupName}`: if
`groupName` is in the group map, then after `handleLeave` its member list is
the old list without the occurrences of the leaving session's display name, the
other names in their original order (the list is unchanged when the name is not
in it), while every other group, the session set and the names are unchanged;
if `groupName` is not in the map, `handleLeave` changes nothing and does not
create the group.  Consequently a `Broadcast` to that group on the state after
the `Leave` is attempted for no session bearing the leaver's name. -/
theorem handleLeave_removes_name (s : TcpChatServer) (cc : ConnId) (cmd : LeaveCommand) :
    (∀ members, s.groupToMembers cmd.GroupName = some members →
      (handleLeave s cc cmd).state.groupToMembers cmd.GroupName =
        some (members.filter (fun userName => userName ≠ (s.heap cc).name)) ∧
      ((s.heap cc).name ∉ members →
        (handleLeave s cc cmd).state.groupToMembers cmd.GroupName = some members) ∧
      (∀ g, g ≠ cmd.GroupName →
        (handleLeave s cc cmd).state.groupToMembers g = s.groupToMembers g) ∧
      (handleLeave s cc cmd).state.clientConnSet = s.clientConnSet ∧
      (handleLeave s cc cmd).state.heap = s.heap ∧
      (∀ env order cc2 (bc : BroadCastCommand), bc.GroupName = cmd.GroupName →
        ∀ e ∈ (handleBroadcast (handleLeave s cc cmd).state env order cc2 bc).effects,
          ((handleLeave s cc cmd).state.heap e.target).name ≠ (s.heap cc).name)) ∧
    (s.groupToMembers cmd.GroupName = none →
      (handleLeave s cc cmd).state = s ∧
      (handleLeave s cc cmd).state.groupToMembers cmd.GroupName = none) := by
  refine ⟨?_, ?_⟩
  · intro members h
    have hst : (handleLeave s cc cmd).state = writeSection s
        ⟨cmd.GroupName, members.filter (fun userName => userName ≠ (s.heap cc).name)⟩ := by
      simp only [handleLeave, handleLeave_readSection_some s cc cmd members h]
    have hg : (handleLeave s cc cmd).state.groupToMembers cmd.GroupName =
        some (members.filter (fun userName => userName ≠ (s.heap cc).name)) := by
      rw [hst]; simp [writeSection]
    refine ⟨hg, ?_, ?_, by rw [hst]; rfl, by rw [hst]; rfl, ?_⟩
    · intro hn
      rw [hg]
      congr 1
      apply List.filter_eq_self.mpr
      intro u hu
      simp only [ne_eq, decide_eq_true_eq]
      rintro rfl
      exact hn hu
    · intro g hne
      rw [hst]
      simp [writeSection, Function.update_noteq hne]
    · intro env order cc2 bc hname e he
      have hg' : (handleLeave s cc cmd).state.groupToMembers bc.GroupName =
          some (members.filter (fun userName => userName ≠ (s.heap cc).name)) := by
        rw [hname]; exact hg
      simp only [handleBroadcast, hg', handleBroadcast_range_effects, List.mem_map,
        List.mem_filter, decide_eq_true_eq] at he
      obtain ⟨x, ⟨-, -, -, hx⟩, rfl⟩ := he
      simpa [Effect.target] using hx
  · intro h
    have hst : (handleLeave s cc cmd).state = s := by
      simp only [handleLeave, handleLeave.readSection, h]
    exact ⟨hst, by rw [hst]; exact h⟩

/-- Witness of C16: session `x` leaves the group `g1` of members `x`, `y`, `z`:
the list becomes `y`, `z`. -/
theorem handleLeave_removes_name_witness :
    (handleLeave xyServer 1 ⟨chatBase, "g1".toList⟩).state.groupToMembers "g1".toList =
      some ["y".toList, "z".toList] :=
  ((handleLeave_removes_name xyServer 1 ⟨chatBase, "g1".toList⟩).1
    ["x".toList, "y".toList, "z".toList] rfl).1

/-- C17: deregistration touches the live set only: for every registry state and
session, both `handleLogout` and `remove` yield a state whose live-session set
is the old set without that session (the other sessions stay, each once;
removing an absent session changes nothing), whose names are those of the old
state and whose group map is the old one, so the session's user name stays in
every member list that held it. -/
theorem deregister_touches_live_set_only (s : TcpChatServer) (env : IOOutcomes) (cc : ConnId)
    (cmd : LogoutCommand) :
    ((handleLogout s env cc cmd).state = remove s cc) ∧
    (∀ x, x ∈ (remove s cc).clientConnSet ↔ x ∈ s.clientConnSet ∧ x ≠ cc) ∧
    (s.clientConnSet.Nodup → (remove s cc).clientConnSet.Nodup) ∧
    (cc ∉ s.clientConnSet → (remove s cc).clientConnSet = s.clientConnSet) ∧
    (remove s cc).heap = s.heap ∧
    (remove s cc).groupToMembers = s.groupToMembers ∧
    (∀ g members, s.groupToMembers g = some members → (s.heap cc).name ∈ members →
      ∃ members', (remove s cc).groupToMembers g = some members' ∧
        ((remove s cc).heap cc).name ∈ members') := by
  refine ⟨rfl, ?_, ?_, ?_, rfl, rfl, ?_⟩
  · intro x
    simp [remove, List.mem_filter]
  · intro h
    exact h.filter _
  · intro h
    simp only [remove]
    apply List.filter_eq_self.mpr
    intro x hx
    simp only [ne_eq, decide_eq_true_eq]
    rintro rfl
    exact h hx
  · intro g members hg hm
    exact ⟨members, hg, hm⟩

/-- Witness of C17: after the logout of session 1 (named `a`) the live set is
2, 3 and `a` is still a member of `g1`. -/
theorem deregister_touches_live_set_only_witness :
    (handleLogout abcServer allSucceed 1 ⟨chatBase⟩).state.clientConnSet = [2, 3] ∧
    (∃ members', (remove abcServer 1).groupToMembers "g1".toList = some members' ∧
      ((remove abcServer 1).heap 1).name ∈ members') :=
  ⟨by rw [(deregister_touches_live_set_only abcServer allSucceed 1 ⟨chatBase⟩).1]; decide,
   (deregister_touches_live_set_only abcServer allSucceed 1 ⟨chatBase⟩).2.2.2.2.2.2
     "g1".toList ["b".toList, "c".toList, "a".toList] rfl (by decide)⟩

/-- A call that is not interrupted between its two sections leaves the state
its handler leaves. -/
theorem runSchedule_uninterrupted (s : TcpChatServer) (c : Call) :
    runSchedule s [.ready c] [0, 0] = (c.run s, [.finished]) := by
  cases c with
  | group cc cmd =>
    cases h : handleGroup.readSection s cmd <;>
      simp [runSchedule, stepThread, Call.readSection, Call.run, handleGroup, h]
  | leave cc cmd =>
    cases h : handleLeave.readSection s cc cmd <;>
      simp [runSchedule, stepThread, Call.readSection, Call.run, handleLeave, h]

/-- C18, the failing interleaving: on the group `g1` of members `x`, `y`, `z`,
the sessions named `x` and `y` call `Leave{g1}` concurrently; both run their
read-locked section before either stores.  Both calls return, and the group is
left with the members `x`, `z`: the removal of `x` is lost, while either
sequential order leaves `z` alone.  Likewise two concurrent `Group{g1}` calls
that both find the name absent: the first writer stores `[x]`, and the second
overwrites it with `[y]`. -/
theorem concurrent_leave_loses_update :
    (runSchedule xyServer
        [.ready (.leave 1 ⟨chatBase, "g1".toList⟩), .ready (.leave 2 ⟨chatBase, "g1".toList⟩)]
        [0, 1, 0, 1]).2 = [.finished, .finished] ∧
    (runSchedule xyServer
        [.ready (.leave 1 ⟨chatBase, "g1".toList⟩), .ready (.leave 2 ⟨chatBase, "g1".toList⟩)]
        [0, 1, 0, 1]).1.groupToMembers "g1".toList = some ["x".toList, "z".toList] ∧
    (runSequential xyServer
        [.leave 1 ⟨chatBase, "g1".toList⟩, .leave 2 ⟨chatBase, "g1".toList⟩]).groupToMembers
        "g1".toList = some ["z".toList] ∧
    (runSequential xyServer
        [.leave 2 ⟨chatBase, "g1".toList⟩, .leave 1 ⟨chatBase, "g1".toList⟩]).groupToMembers
        "g1".toList = some ["z".toList] ∧
    (runSchedule noGroupServer
        [.ready (.group 1 ⟨chatBase, "g1".toList, ["x".toList]⟩),
         .ready (.group 2 ⟨chatBase, "g1".toList, ["y".toList]⟩)]
        [0, 1, 0]).1.groupToMembers "g1".toList = some ["x".toList] ∧
    (runSchedule noGroupServer
        [.ready (.group 1 ⟨chatBase, "g1".toList, ["x".toList]⟩),
         .ready (.group 2 ⟨chatBase, "g1".toList, ["y".toList]⟩)]
        [0, 1, 0, 1]).1.groupToMembers "g1".toList = some ["y".toList] := by
  decide

theorem handleSend_range_mem (s : TcpChatServer) (env : IOOutcomes) (cc : ConnId)
    (cmd : SendCommand) (l : List ConnId) :
    ∀ w ∈ (handleSend.range s env cc cmd l).1,
      ∃ x ∈ l, (s.heap x).name = cmd.Name ∧
        w = .write x (receiveFor s cc cmd.toBaseCommand cmd.Data) := by
  induction l with
  | nil => simp [handleSend.range]
  | cons x xs ih =>
    intro w hw
    by_cases hx : (s.heap x).name = cmd.Name
    · simp only [handleSend.range, hx, ↓reduceIte] at hw
      cases he : env (Effect.write x (receiveFor s cc cmd.toBaseCommand cmd.Data)) with
      | some e =>
        simp only [he, List.mem_singleton] at hw
        exact ⟨x, by simp, hx, hw⟩
      | none =>
        simp only [he, List.mem_cons] at hw
        rcases hw with hw | hw
        · exact ⟨x, by simp, hx, hw⟩
        · obtain ⟨y, hy, hyn, hyw⟩ := ih w hw
          exact ⟨y, by simp [hy], hyn, hyw⟩
    · simp only [handleSend.range, hx, ↓reduceIte] at hw
      obtain ⟨y, hy, hyn, hyw⟩ := ih w hw
      exact ⟨y, by simp [hy], hyn, hyw⟩

theorem handleGroup_keeps (s : TcpChatServer) (cc : ConnId) (cmd : GroupCommand)
    (g : GoString) (members : List GoString) (h : s.groupToMembers g = some members) :
    (handleGroup s cc cmd).state.groupToMembers g = some members := by
  cases hq : s.groupToMembers cmd.GroupName with
  | some ms =>
    simp only [handleGroup, handleGroup.readSection, hq]
    exact h
  | none =>
    have hne : g ≠ cmd.GroupName := by
      rintro rfl
      rw [h] at hq
      simp at hq
    simp only [handleGroup, handleGroup.readSection, hq, writeSection,
      Function.update_noteq hne]
    exact h

theorem handleLeave_keeps (s : TcpChatServer) (cc : ConnId) (cmd : LeaveCommand)
    (g : GoString) (members : List GoString) (h : s.groupToMembers g = some members) :
    ∃ members', (handleLeave s cc cmd).state.groupToMembers g = some members' := by
  cases hq : s.groupToMembers cmd.GroupName with
  | none =>
    refine ⟨members, ?_⟩
    simp only [handleLeave, handleLeave.readSection, hq]
    exact h
  | some ms =>
    by_cases hg : g = cmd.GroupName
    · subst hg
      refine ⟨ms.filter (fun userName => userName ≠ (s.heap cc).name), ?_⟩
      simp only [handleLeave, handleLeave_readSection_some s cc cmd ms hq, writeSection,
        Function.update_same]
    · refine ⟨members, ?_⟩
      simp only [handleLeave, handleLeave_readSection_some s cc cmd ms hq, writeSection,
        Function.update_noteq hg]
      exact h

/-- C21: group names are never released: for every registry state, every group
name present in the group map before `handleSend`, `handleBroadcast`,
`handleLogin`, `handleLogout`, `handleGroup`, `handleLeave` or `remove` (hence
before any dispatched command) is still present after it.  In particular a
`Leave` that removes the last member leaves the group in the map with an empty
member list, so a later `Group` command with that name is a no-op and the
member list stays empty. -/
theorem group_names_never_released (s : TcpChatServer) (env : IOOutcomes)
    (order : List ConnId) (cc : ConnId) (g : GoString) (members : List GoString)
    (h : s.groupToMembers g = some members) :
    (∀ cmd, (handleSend s env order cc cmd).state.groupToMembers g = some members) ∧
    (∀ cmd, (handleBroadcast s env order cc cmd).state.groupToMembers g = some members) ∧
    (∀ cmd, (handleLogin s cc cmd).state.groupToMembers g = some members) ∧
    (∀ cmd, (handleLogout s env cc cmd).state.groupToMembers g = some members) ∧
    (∀ cmd, (handleGroup s cc cmd).state.groupToMembers g = some members) ∧
    (∀ cmd, ∃ members', (handleLeave s cc cmd).state.groupToMembers g = some members') ∧
    (remove s cc).groupToMembers g = some members ∧
    (∀ cmd, ∃ members', (dispatch s env order cc cmd).state.groupToMembers g =
      some members') ∧
    (∀ cmd : LeaveCommand, cmd.GroupName = g → (∀ u ∈ members, u = (s.heap cc).name) →
      (handleLeave s cc cmd).state.groupToMembers g = some [] ∧
      ∀ cc2 (gc : GroupCommand), gc.GroupName = g →
        (handleGroup (handleLeave s cc cmd).state cc2 gc).state =
          (handleLeave s cc cmd).state ∧
        (handleGroup (handleLeave s cc cmd).state cc2 gc).state.groupToMembers g =
          some []) := by
  have hB : ∀ cmd, (handleBroadcast s env order cc cmd).state.groupToMembers g =
      some members := by
    intro cmd
    cases hq : s.groupToMembers cmd.GroupName <;> simp only [handleBroadcast, hq] <;> exact h
  refine ⟨fun _ => h, hB, fun _ => h, fun _ => h, fun cmd => handleGroup_keeps s cc cmd g _ h,
    fun cmd => handleLeave_keeps s cc cmd g _ h, h, ?_, ?_⟩
  · intro cmd
    cases cmd with
    | Send c => exact ⟨members, h⟩
    | BroadCast c => exact ⟨members, hB c⟩
    | Login c => exact ⟨members, h⟩
    | Logout c => exact ⟨members, h⟩
    | Receive c => exact ⟨members, h⟩
    | Group c => exact ⟨members, handleGroup_keeps s cc c g _ h⟩
    | Leave c => exact handleLeave_keeps s cc c g _ h
  · intro cmd hname hall
    subst hname
    have hfil : members.filter (fun userName => userName ≠ (s.heap cc).name) = [] := by
      apply List.filter_eq_nil_iff.mpr
      intro u hu
      simp [hall u hu]
    have hL : (handleLeave s cc cmd).state.groupToMembers cmd.GroupName = some [] := by
      simp only [handleLeave, handleLeave_readSection_some s cc cmd members h, writeSection,
        Function.update_same, hfil]
    refine ⟨hL, ?_⟩
    intro cc2 gc hgc
    have hst : (handleGroup (handleLeave s cc cmd).state cc2 gc).state =
        (handleLeave s cc cmd).state := by
      simp only [handleGroup, handleGroup.readSection, hgc, hL]
    exact ⟨hst, by rw [hst]; exact hL⟩

/-- Witness of C21: the only member `x` leaves the group `g1`; the group stays
in the map with the empty list, also after a later `Group{g1, [y, z]}`. -/
theorem group_names_never_released_witness :
    (handleLeave soloServer 1 ⟨chatBase, "g1".toList⟩).state.groupToMembers "g1".toList =
      some [] ∧
    (handleGroup (handleLeave soloServer 1 ⟨chatBase, "g1".toList⟩).state 1
        ⟨chatBase, "g1".toList, ["y".toList, "z".toList]⟩).state.groupToMembers "g1".toList =
      some [] :=
  ⟨((group_names_never_released soloServer allSucceed [1] 1 "g1".toList ["x".toList]
      rfl).2.2.2.2.2.2.2.2 ⟨chatBase, "g1".toList⟩ rfl (by decide)).1,
   (((group_names_never_released soloServer allSucceed [1] 1 "g1".toList ["x".toList]
      rfl).2.2.2.2.2.2.2.2 ⟨chatBase, "g1".toList⟩ rfl (by decide)).2 1
      ⟨chatBase, "g1".toList, ["y".toList, "z".toList]⟩ rfl).2⟩

/-- A line that the decoder rejects as invalid leaves the registry alone and
the read loop running. -/
theorem serveIteration_invalid (s : TcpChatServer) (env : IOOutcomes) (order : List ConnId)
    (cc : ConnId) (input : GoString)
    (h : Read input = some ⟨none, some .InvalidMessageErr⟩) :
    serveIteration s env order cc input = some (⟨s, [], none⟩, .next) := by
  have hc : Contains (ErrorString .InvalidMessageErr) ClosedConnectionMsg = false := by decide
  simp only [serveIteration, h, hc, reduceCtorEq, ↓reduceIte, Bool.false_eq_true]

/-- C22: a client cannot inject deliveries with a `RECEIVE` line: the decoder
accepts the well-formed line `"CHAT/1.0 RECEIVE " ++ f ++ " " ++ d` and returns
`Receive{from: f, data: d}`, but for every registry state and session,
dispatching a `Receive` command attempts no delivery to any session and leaves
the registry (live-session set, every display name, group map) unchanged; and
the iteration of the serve loop that reads that line does exactly this and goes
on to the next line. -/
theorem receive_line_delivers_nothing (f d : GoString) (hf : NoSpace f) (hd : NoLineBreak d)
    (s : TcpChatServer) (env : IOOutcomes) (order : List ConnId) (cc : ConnId) :
    decodeLine ("CHAT/1.0 RECEIVE ".toList ++ f ++ " ".toList ++ d) =
      some ⟨some (.Receive ⟨chatBase, f, d⟩), none⟩ ∧
    (∀ rc : ReceiveCommand,
      (dispatch s env order cc (.Receive rc)).effects = [] ∧
      (dispatch s env order cc (.Receive rc)).state = s ∧
      (dispatch s env order cc (.Receive rc)).state.clientConnSet = s.clientConnSet ∧
      (dispatch s env order cc (.Receive rc)).state.heap = s.heap ∧
      (dispatch s env order cc (.Receive rc)).state.groupToMembers = s.groupToMembers) ∧
    (∃ o, serveIteration s env order cc
        ("CHAT/1.0 RECEIVE ".toList ++ f ++ " ".toList ++ d ++ "\n".toList) =
          some (o, .next) ∧
      o.effects = [] ∧ o.state = s) := by
  have _ := hd
  obtain ⟨q, qs, hq, hj⟩ := Split_body d
  have hW := wire_line CmdReceive f d (by decide) (space_not_mem_of_NoSpace f hf)
  rw [hq, switchCmd_Receive_ok _ _ _ _ _ _ (by decide), hj, TrimSpace_eq_self f hf] at hW
  refine ⟨?_, fun rc => ⟨rfl, rfl, rfl, rfl, rfl⟩, ?_⟩
  · simpa [expectedTag, CmdReceive] using hW
  · have hP : "CHAT/1.0 RECEIVE ".toList ++ f ++ " ".toList ++ d ++ "\n".toList =
        (expectedTag ++ ' ' :: (CmdReceive ++ [' '])) ++ (f ++ ' ' :: (d ++ ['\n'])) := by
      simp [expectedTag, CmdReceive]
    obtain ⟨t, rest, hRL⟩ := ReadLine_keeps_prefix (expectedTag ++ ' ' :: (CmdReceive ++ [' ']))
      (f ++ ' ' :: (d ++ ['\n'])) (by decide) (by decide) (by decide) (by decide)
    have hdec : decodeLine ((expectedTag ++ ' ' :: (CmdReceive ++ [' '])) ++ t) =
        switchCmd chatBase (expectedTag :: CmdReceive :: Split t ProtocolSep) := by
      have := decodeLine_wire CmdReceive (Split t ProtocolSep) t rfl (by decide)
      simpa using this
    have hread : Read ("CHAT/1.0 RECEIVE ".toList ++ f ++ " ".toList ++ d ++ "\n".toList) =
        switchCmd chatBase (expectedTag :: CmdReceive :: Split t ProtocolSep) := by
      rw [hP]
      simp only [Read, hRL]
      exact hdec
    rcases hsp : Split t ProtocolSep with _ | ⟨p2, _ | ⟨r, rs⟩⟩
    · exact absurd hsp (Split_ne_nil _ _)
    · rw [hsp, switchCmd_Receive_short _ _ _ _ (by decide) (by simp)] at hread
      exact ⟨⟨s, [], none⟩, serveIteration_invalid s env order cc _ hread, rfl, rfl⟩
    · rw [hsp, switchCmd_Receive_ok _ _ _ _ _ _ (by decide)] at hread
      refine ⟨dispatch s env order cc
        (.Receive ⟨chatBase, TrimSpace p2, Join (r :: rs) ProtocolSep⟩), ?_, rfl, rfl⟩
      simp only [serveIteration, hread]

/-- Witness of C22: session `a` sends the line `"CHAT/1.0 RECEIVE b hi"`: it
decodes to `Receive{from: "b", data: "hi"}`, and the serve loop attempts no
write and goes on. -/
theorem receive_line_delivers_nothing_witness :
    decodeLine ("CHAT/1.0 RECEIVE ".toList ++ "b".toList ++ " ".toList ++ "hi".toList) =
      some ⟨some (.Receive ⟨chatBase, "b".toList, "hi".toList⟩), none⟩ ∧
    (∃ o, serveIteration abcServer allSucceed [1, 2, 3] 1
        ("CHAT/1.0 RECEIVE ".toList ++ "b".toList ++ " ".toList ++ "hi".toList ++
          "\n".toList) = some (o, .next) ∧
      o.effects = [] ∧ o.state = abcServer) :=
  ⟨(receive_line_delivers_nothing "b".toList "hi".toList (by decide) (by decide) abcServer
      allSucceed [1, 2, 3] 1).1,
   (receive_line_delivers_nothing "b".toList "hi".toList (by decide) (by decide) abcServer
      allSucceed [1, 2, 3] 1).2.2⟩

end server
